import Mathlib

/-!
# Verification of the jarvis knowledge-retrieval core

Shallow embedding of the search / ranking / routing core of the repository:

* `embeddings.py`    — cosine similarity and `semantic_search`
* `search_engine.py` — keyword relevance scoring, diversity selection, `search`
* `utils.py`         — `get_daily_three` and its `_ensure_variety`
* `database_v2.py`   — `get_daily_insights` and its `_ensure_variety`
* `query_engine.py`  — query classification, routing, the six handlers,
  `_save_synthesis`, `_get_library_stats`, `_get_diverse_sample`

Modelling conventions, used throughout:

* SQLite rows become Lean structures; a nullable column becomes an `Option`
  field.  A table is a `List` of rows in storage order; a SQL `WHERE` clause
  becomes `List.filter`, `ORDER BY` becomes a stable insertion sort (SQLite
  does not promise a tie order; the model fixes the stable one).
* The `RANDOM()` tie-break of the daily queries is modelled by an explicit
  key parameter `rnd : Insight → Nat`; universally quantified statements hold
  for every such key.
* Python text is modelled as `String` / `List Char`; helpers below reproduce
  the exact Python semantics used by the sources (truthiness, `split`,
  `strip`, substring test, `str.lower`, `replace`).
* The relevance scores of `search_engine.py` are Python floats whose values
  are always exact multiples of 0.1 (the constants are 5.0, 0.5, 2.0, 1.0,
  1.5 and `quality_score / 10.0`).  The model represents a score `s` by the
  integer `10 * s` (exact, order-preserving fixed-point encoding), so all
  ranking arithmetic stays in `ℤ`.
* External network services (OpenAI embeddings, the completion service) are
  out-of-scope black boxes: they appear as function-typed parameters, and a
  fallible call is an `Option`-valued parameter.
* Python exceptions and non-termination of a `while` loop are distinguished
  effects: `PyFail.raised` models an uncaught exception, `PyFail.fuel` models
  exhaustion of the fuel of a loop whose source form does not terminate.
-/

/-- Failure modes of the embedded Python code: an uncaught exception, or fuel
exhaustion standing for non-termination of a source-level `while` loop. -/
inductive PyFail where
  | raised
  | fuel
deriving DecidableEq, Repr

/-- Result of an embedded fragment of Python. -/
abbrev PyRes (α : Type) := Except PyFail α

deriving instance DecidableEq for Except

/-- Python truthiness of an optional string (`None` and `""` are falsy). -/
def optTruthy : Option String → Bool
  | none => false
  | some s => s ≠ ""

/-- Python `x or d` for an optional string (`None`/`""` fall back to `d`). -/
def pyOrStr (o : Option String) (d : String) : String :=
  match o with
  | none => d
  | some s => if s = "" then d else s

/-- Python `x or d` for a nullable integer (`None` and `0` fall back). -/
def pyOrInt (o : Option Int) (d : Int) : Int :=
  match o with
  | none => d
  | some q => if q = 0 then d else q

/-- Byte-wise string comparison as used by SQLite on TEXT values, on char
lists (structural, unlike `String.lt`, so that the kernel can evaluate it). -/
def listStrLt : List Char → List Char → Bool
  | [], [] => false
  | [], _ :: _ => true
  | _ :: _, [] => false
  | a :: as, b :: bs => if a < b then true else if b < a then false else listStrLt as bs

/-- `pat` is a prefix of `l`. -/
def listStartsWith : List Char → List Char → Bool
  | [], _ => true
  | _ :: _, [] => false
  | p :: ps, c :: cs => p = c && listStartsWith ps cs

/-- Python `pat in text` (contiguous substring test). -/
def listContains (text pat : List Char) : Bool :=
  match text with
  | [] => pat.isEmpty
  | _ :: rest => listStartsWith pat text || listContains rest pat

/-- Python `str.split(",")`: always returns at least one piece. -/
def splitCommaAux (cur : List Char) : List Char → List (List Char)
  | [] => [cur.reverse]
  | ',' :: rest => cur.reverse :: splitCommaAux [] rest
  | c :: rest => splitCommaAux (c :: cur) rest

/-- Python `s.split(",")` on a `String`. -/
def splitComma (s : String) : List String :=
  (splitCommaAux [] s.data).map List.asString

/-- Python `str.strip()` (remove leading and trailing whitespace). -/
def pyStrip (s : String) : String :=
  ((s.data.dropWhile Char.isWhitespace).reverse.dropWhile Char.isWhitespace).reverse.asString

/-- Python `str.lower()` on a char list (ASCII, as in the data at hand). -/
def lowerList (l : List Char) : List Char :=
  l.map Char.toLower

/-- First `n` characters, Python `s[:n]` (structural, kernel-friendly). -/
def strTake (s : String) (n : Nat) : String :=
  (s.data.take n).asString

/-- Stable insertion of `a` into `l`, keeping `a` before the first element
`b` with `le a b`; building block of the stable sorts below. -/
def insertOrdered (le : α → α → Bool) (a : α) : List α → List α
  | [] => [a]
  | b :: l => if le a b then a :: b :: l else b :: insertOrdered le a l

/-- Stable sort by the boolean relation `le` (the model of Python `sort` /
SQLite `ORDER BY`: a stable sort is the unique sorted, stable permutation). -/
def stableSort (le : α → α → Bool) : List α → List α
  | [] => []
  | a :: l => insertOrdered le a (stableSort le l)

/-- Descending comparison by a key into a linear order; ties accept, so the
sort is stable exactly like Python `list.sort(key=…, reverse=True)`. -/
def keyGe [LinearOrder β] (k : α → β) (a b : α) : Bool :=
  decide (k b ≤ k a)

/-- Stable descending sort by key (Python `sort(key=…, reverse=True)`). -/
def sortDescBy [LinearOrder β] (k : α → β) (l : List α) : List α :=
  stableSort (keyGe k) l

/-! ## Data model: the `insights` table

One row of the `insights` table, restricted to the columns the verified core
reads.  `embedding` is a TEXT column holding a JSON float vector; the model
carries the parsed vector, with `none` standing for NULL, the empty string,
or an unparsable value (all of which `semantic_search` skips). -/

structure Insight where
  id : Nat
  content : Option String := none
  extracted_text : Option String := none
  context_message : Option String := none
  source_url : Option String := none
  source_type : Option String := none
  content_category : Option String := none
  tags : Option String := none
  quality_score : Option Int := none
  useful_for_daily : Bool := true
  is_duplicate : Bool := false
  archived : Bool := false
  status : String := "pending"
  last_shown_date : Option String := none
  times_skipped : Int := 0
  shared_date : Option String := none
  embedding : Option (List ℚ) := none
  user_id : Option Int := none
  trial_key : Option String := none
deriving DecidableEq, Repr

/-! ## `embeddings.py` — `EmbeddingEngine` -/

/-- `sum(x * y for x, y in zip(a, b))`. -/
def dotList (a b : List ℚ) : ℚ :=
  (List.zipWith (fun x y => x * y) a b).sum

/-- `sum(x * x for x in a)`; the squared Euclidean norm, which is zero
exactly when the norm is zero. -/
def sumSq (a : List ℚ) : ℚ :=
  (a.map (fun x => x * x)).sum

/-- A Python float produced by `cosine_similarity`: either the literal `0.0`
of the zero-norm guard, or the value `dot / (sqrt sa * sqrt sb)` kept in
exact symbolic form (the square roots are irrational in general). -/
inductive CosValue where
  | lit (q : ℚ)
  | ratio (dot sa sb : ℚ)
deriving DecidableEq, Repr

/-- `EmbeddingEngine.cosine_similarity`, pure-Python fallback path
(`HAS_NUMPY` false): guards `norm_a == 0 or norm_b == 0` and returns the
literal `0.0`; otherwise divides.  Always returns a number (`some`). -/
def cosine_similarity_py (a b : List ℚ) : Option CosValue :=
  let dot := dotList a b
  let na := sumSq a
  let nb := sumSq b
  if na = 0 ∨ nb = 0 then some (CosValue.lit 0)
  else some (CosValue.ratio dot na nb)

/-- `EmbeddingEngine.cosine_similarity`, numpy path (`HAS_NUMPY` true):
`float(np.dot(a, b) / (np.linalg.norm(a) * np.linalg.norm(b)))` with no
zero-norm guard.  When a norm is zero the dot product is also zero and numpy
evaluates `0.0 / 0.0` to `nan`, modelled as `none` (not a number — and not an
exception either). -/
def cosine_similarity_np (a b : List ℚ) : Option CosValue :=
  let na := sumSq a
  let nb := sumSq b
  if na = 0 ∨ nb = 0 then none
  else some (CosValue.ratio (dotList a b) na nb)

/-- A row of a `semantic_search` result: the insight dict enriched with
`similarity_score`. -/
structure SemResult where
  insight : Insight
  similarity_score : ℚ
deriving DecidableEq, Repr

/-- The scope filter of `semantic_search`: `trial_key = ?` when a trial key
is given and the column exists, else `(user_id = ? OR user_id IS NULL)` when
a user id is given and the column exists, else no extra filter. -/
def semanticScope (userId : Option Int) (trialKey : Option String)
    (hasTrialCol hasUserCol : Bool) (i : Insight) : Bool :=
  if optTruthy trialKey && hasTrialCol then i.trial_key = trialKey
  else if userId.isSome && hasUserCol then i.user_id = userId || i.user_id = none
  else true

/-- `ORDER BY shared_date DESC` (SQLite: NULLs are smallest, hence last in
descending order). -/
def sharedDateGe (a b : Insight) : Bool :=
  match a.shared_date, b.shared_date with
  | some x, some y => !listStrLt x.data y.data
  | some _, none => true
  | none, none => true
  | none, some _ => false

/-- The candidate rows of `semantic_search`: eligible (`useful_for_daily = 1`),
with a stored embedding, in scope, ordered by `shared_date DESC`. -/
def semanticCandidates (table : List Insight) (userId : Option Int)
    (trialKey : Option String) (hasTrialCol hasUserCol : Bool) : List Insight :=
  stableSort sharedDateGe
    (table.filter (fun i =>
      i.useful_for_daily && i.embedding.isSome &&
      semanticScope userId trialKey hasTrialCol hasUserCol i))

/-- The scored rows of `semantic_search` before sorting: each candidate whose
embedding parses gets a `similarity_score`.  `simFn` abstracts
`self.cosine_similarity` (a real-valued function of the two vectors); the
claims proved below hold for every such function. -/
def semanticScored (simFn : List ℚ → List ℚ → ℚ) (queryEmbedding : List ℚ)
    (rows : List Insight) : List SemResult :=
  rows.filterMap (fun i =>
    (i.embedding).map (fun e => SemResult.mk i (simFn queryEmbedding e)))

/-- `EmbeddingEngine.semantic_search`.  `clientConfigured` is the presence of
the OpenAI client; `queryEmbedding` the result of `generate_embedding(query)`
(`none` when the client is absent, the text is empty, or the call failed).
Returns `[]` in the degraded cases, else sorts by similarity descending
(stable) and truncates to `lim`. -/
def semantic_search (clientConfigured : Bool) (queryEmbedding : Option (List ℚ))
    (simFn : List ℚ → List ℚ → ℚ) (table : List Insight) (userId : Option Int)
    (trialKey : Option String) (hasTrialCol hasUserCol : Bool) (lim : Nat) :
    List SemResult :=
  if !clientConfigured then []
  else
    match queryEmbedding with
    | none => []
    | some qe =>
        let pre := semanticScored simFn qe
          (semanticCandidates table userId trialKey hasTrialCol hasUserCol)
        (sortDescBy (fun r => r.similarity_score) pre).take lim

/-! ## `search_engine.py` — `ContentSearchEngine` -/

/-- A `\w` character of the regex `re.findall(r"\w+", …)` (ASCII view). -/
def isWordChar (c : Char) : Bool :=
  c.isAlpha || c.isDigit || c = '_'

/-- Accumulator pass of `wordRuns`: `cur` is the current run, reversed. -/
def wordRunsAux (cur : List Char) : List Char → List (List Char)
  | [] => if cur.isEmpty then [] else [cur.reverse]
  | c :: rest =>
    if isWordChar c then wordRunsAux (c :: cur) rest
    else if cur.isEmpty then wordRunsAux [] rest
    else cur.reverse :: wordRunsAux [] rest

/-- Split a char list into the maximal runs of word characters
(`re.findall(r"\w+", …)`). -/
def wordRuns (l : List Char) : List (List Char) :=
  wordRunsAux [] l

/-- The stop-word set of `ContentSearchEngine._extract_keywords`. -/
def stopWords : List String :=
  ["the", "a", "an", "and", "or", "but", "in", "on", "at", "to",
   "for", "of", "with", "by", "from", "is", "are", "was", "were",
   "be", "been", "being", "have", "has", "had", "do", "does", "did",
   "will", "would", "should", "could", "may", "might", "must",
   "i", "you", "he", "she", "it", "we", "they", "what", "which",
   "who", "when", "where", "why", "how", "about", "this", "that"]

/-- `ContentSearchEngine._extract_keywords`: lower-case, tokenize on word
boundaries, drop stop words and tokens of length at most 2. -/
def extract_keywords (text : String) : List String :=
  let words := (wordRuns (lowerList text.data)).map List.asString
  words.filter (fun w => w ∉ stopWords && 2 < w.length)

/-- The combined searchable text of `_calculate_relevance`:
`" ".join([content or "", extracted_text or "", context_message or "",
" ".join(tags-if-list-else-[])]).lower()` — at scoring time `tags` is still
the raw string (or NULL), never a list, so the last piece is empty. -/
def searchableText (i : Insight) : List Char :=
  lowerList (((i.content.getD "") ++ " " ++ (i.extracted_text.getD "") ++ " " ++
    (i.context_message.getD "") ++ " ").data)

/-- `str(insight.get("tags", "")).lower()` — note that a NULL tags column
yields the Python string `"None"`. -/
def tagsStr (i : Insight) : List Char :=
  lowerList (match i.tags with
    | none => "None".data
    | some s => s.data)

/-- `ContentSearchEngine._calculate_relevance`, in exact tenths (the Python
float score times 10): phrase match 5.0, keyword hit 0.5 each, tag keyword
hit 2.0 each, long extracted text 1.0, `quality_score / 10.0` when the
quality is truthy, own note 1.5. -/
def calculate_relevance (i : Insight) (topic : String) (keywords : List String) : ℤ :=
  let text := searchableText i
  let phrase : ℤ := if listContains text (lowerList topic.data) then 50 else 0
  let kw : ℤ := 5 * (keywords.filter (fun k => listContains text k.data)).length
  let tagKw : ℤ := 20 * (keywords.filter (fun k => listContains (tagsStr i) k.data)).length
  let longText : ℤ :=
    match i.extracted_text with
    | some e => if optTruthy (some e) && 500 < e.length then 10 else 0
    | none => 0
  let quality : ℤ :=
    match i.quality_score with
    | some q => if q = 0 then 0 else q
    | none => 0
  let myNote : ℤ := if i.content_category = some "my_note" then 15 else 0
  phrase + kw + tagKw + longText + quality + myNote

/-- A row of the scored search results: the insight, its `tags` replaced by
the parsed list (`[t.strip() for t in tags.split(",")]` when the raw value is
a non-empty string, else `[]`), and the attached `relevance_score` (tenths). -/
structure ScoredInsight where
  insight : Insight
  tags : List String
  relevance_score : ℤ
deriving DecidableEq, Repr

/-- The tag-list normalization performed by `ContentSearchEngine.search` on
each kept insight. -/
def parseTags (i : Insight) : List String :=
  match i.tags with
  | some s => if s ≠ "" then (splitComma s).map pyStrip else []
  | none => []

/-- The eligible rows of `ContentSearchEngine.search`:
`useful_for_daily = 1 AND content_category NOT IN ('junk', 'personal')`
(SQL three-valued logic: a NULL category fails the NOT IN test). -/
def searchEligible (table : List Insight) : List Insight :=
  table.filter (fun i =>
    i.useful_for_daily &&
    match i.content_category with
    | none => false
    | some c => c ≠ "junk" && c ≠ "personal")

/-- The scoring pass of `ContentSearchEngine.search`: keep rows with a
strictly positive relevance, annotate them. -/
def scoredList (table : List Insight) (topic : String) : List ScoredInsight :=
  let keywords := extract_keywords topic
  (searchEligible table).filterMap (fun i =>
    let s := calculate_relevance i topic keywords
    if 0 < s then some (ScoredInsight.mk i (parseTags i) s) else none)

/-- The ranking key of `ContentSearchEngine.search`:
`x["relevance_score"] * (x["quality_score"] or 5)` (Python `or`: a NULL or
zero quality falls back to 5), in tenths. -/
def searchKey (r : ScoredInsight) : ℤ :=
  r.relevance_score * pyOrInt r.insight.quality_score 5

/-- The sequence handed by `ContentSearchEngine.search` to `_ensure_variety`:
scored rows, stably sorted descending by `searchKey`. -/
def scoredSorted (table : List Insight) (topic : String) : List ScoredInsight :=
  sortDescBy searchKey (scoredList table topic)

/-- `ContentSearchEngine._extract_domain`: netloc of the URL with `www.`
removed; `None` for an empty URL or an empty netloc.  `urlparse` is stdlib;
its netloc extraction is modelled as the text between `"://"` and the next
delimiter. -/
def afterScheme : List Char → Option (List Char)
  | ':' :: '/' :: '/' :: rest => some rest
  | _ :: rest => afterScheme rest
  | [] => none

/-- Characters of the netloc: up to the first `/`, `?` or `#`. -/
def takeNetloc : List Char → List Char
  | [] => []
  | c :: rest => if c = '/' || c = '?' || c = '#' then [] else c :: takeNetloc rest

/-- Python `s.replace("www.", "")`: delete every occurrence, left to right. -/
def dropWWW : List Char → List Char
  | 'w' :: 'w' :: 'w' :: '.' :: rest => dropWWW rest
  | c :: rest => c :: dropWWW rest
  | [] => []

/-- `ContentSearchEngine._extract_domain` (and the netloc extraction of
`BrainGymUtils._extract_domain`, which differs only in its `None` handling). -/
def extract_domain (url : Option String) : Option String :=
  match url with
  | none => none
  | some u =>
    if u = "" then none
    else
      match afterScheme u.data with
      | none => none
      | some rest =>
        let d := (dropWWW (takeNetloc rest)).asString
        if d = "" then none else some d

/-- One full `for` sweep of the slot-filling `while` loop shared by
`ContentSearchEngine._ensure_variety` and `BrainGymUtils._ensure_variety`:
append every item not yet chosen (Python `not in`, i.e. value equality),
breaking once the limit is reached. -/
def fillSweep [DecidableEq α] (limit : Nat) : List α → List α → List α
  | [], sel => sel
  | i :: rest, sel =>
    if i ∈ sel then fillSweep limit rest sel
    else
      let s := sel ++ [i]
      if limit ≤ s.length then s else fillSweep limit rest s

/-- The fueled `while len(selected) < limit and len(selected) < len(items)`
loop around `fillSweep`; `none` models non-termination (the loop body makes
no progress when every item is already a member by value). -/
def fillLoop [DecidableEq α] (limit : Nat) (items : List α) (fuel : Nat)
    (sel : List α) : Option (List α) :=
  if sel.length < limit ∧ sel.length < items.length then
    match fuel with
    | 0 => none
    | f + 1 => fillLoop limit items f (fillSweep limit items sel)
  else some sel

/-- First diversity pass of `ContentSearchEngine._ensure_variety`: accept an
item whose category is new or whose domain is new; the category is always
recorded, the domain only when truthy. -/
def firstPassSearch (limit : Nat) :
    List ScoredInsight → List ScoredInsight → List (Option String) →
    List (Option String) → List ScoredInsight
  | [], sel, _, _ => sel
  | i :: rest, sel, usedCats, usedDoms =>
    if limit ≤ sel.length then sel
    else
      let category := i.insight.content_category
      let domain := extract_domain i.insight.source_url
      if category ∉ usedCats ∨ domain ∉ usedDoms then
        firstPassSearch limit rest (sel ++ [i]) (category :: usedCats)
          (if optTruthy domain then domain :: usedDoms else usedDoms)
      else firstPassSearch limit rest sel usedCats usedDoms

/-- `ContentSearchEngine._ensure_variety`: returns the input unchanged when
it already fits, else the diversity pass followed by the fueled fill loop and
the final `selected[:limit]`.  `PyFail.fuel` models the infinite loop the
source runs into when the leftover items are all duplicates by value. -/
def ensure_variety_search (insights : List ScoredInsight) (limit : Nat) :
    PyRes (List ScoredInsight) :=
  if insights.length ≤ limit then Except.ok insights
  else
    match fillLoop limit insights (insights.length + 2)
      (firstPassSearch limit insights [] [] []) with
    | some s => Except.ok (s.take limit)
    | none => Except.error PyFail.fuel

/-- `ContentSearchEngine.search`: fetch eligible rows, score, filter zero
scores, sort by `relevance * (quality or 5)` descending, apply diversity
selection. -/
def ContentSearchEngine_search (table : List Insight) (topic : String) (lim : Nat) :
    PyRes (List ScoredInsight) :=
  ensure_variety_search (scoredSorted table topic) lim

/-! ## `utils.py` — `BrainGymUtils` -/

/-- SQL comparison of nullable integers with NULL smallest (SQLite order). -/
def optIntLt : Option Int → Option Int → Bool
  | none, none => false
  | none, some _ => true
  | some _, none => false
  | some x, some y => x < y

/-- `ORDER BY quality_score DESC, RANDOM()`: higher quality first (NULL
last), then the random key ascending. -/
def dailyThreeLe (rnd : Insight → Nat) (a b : Insight) : Bool :=
  if optIntLt a.quality_score b.quality_score then false
  else if optIntLt b.quality_score a.quality_score then true
  else rnd a ≤ rnd b

/-- `BrainGymUtils._extract_domain`: `urlparse(url).netloc.replace("www.", "")`
(always a string, possibly empty — unlike the search-engine variant). -/
def utilsDomain (u : String) : String :=
  match afterScheme u.data with
  | none => ""
  | some rest => (dropWWW (takeNetloc rest)).asString

/-- Membership of a nullable category in the set of recorded (truthy)
category strings: Python `category in used_categories` where the set holds
strings only, so `None` is never a member. -/
def optMem (c : Option String) (used : List String) : Bool :=
  match c with
  | none => false
  | some s => s ∈ used

/-- First diversity pass of `BrainGymUtils._ensure_variety`: domain is the
literal string `"none"` when the URL is falsy; category and domain are
recorded only when truthy. -/
def firstPassUtils (count : Nat) :
    List Insight → List Insight → List String → List String → List Insight
  | [], sel, _, _ => sel
  | i :: rest, sel, usedCats, usedDoms =>
    if count ≤ sel.length then sel
    else
      let category := i.content_category
      let domain := if optTruthy i.source_url then utilsDomain (i.source_url.getD "") else "none"
      if ¬ optMem category usedCats ∨ domain ∉ usedDoms then
        firstPassUtils count rest (sel ++ [i])
          (if optTruthy category then (category.getD "") :: usedCats else usedCats)
          (if domain ≠ "" then domain :: usedDoms else usedDoms)
      else firstPassUtils count rest sel usedCats usedDoms

/-- `BrainGymUtils._ensure_variety` (same shape as the search-engine variant;
the fill loop is literally the same code). -/
def ensure_variety_utils (candidates : List Insight) (count : Nat) :
    PyRes (List Insight) :=
  if candidates.length ≤ count then Except.ok candidates
  else
    match fillLoop count candidates (candidates.length + 2)
      (firstPassUtils count candidates [] [] []) with
    | some s => Except.ok (s.take count)
    | none => Except.error PyFail.fuel

/-- The state touched by `BrainGymUtils`: just the `insights` table. -/
structure UtilsState where
  insights : List Insight
deriving DecidableEq, Repr

/-- `BrainGymUtils.mark_shown` applied to each selected insight:
`UPDATE insights SET last_shown_date = today WHERE id = ?`. -/
def markShown (st : UtilsState) (sel : List Insight) (today : String) : UtilsState :=
  UtilsState.mk (st.insights.map (fun i =>
    if i.id ∈ sel.map Insight.id then { i with last_shown_date := some today } else i))

/-- The candidate query of `BrainGymUtils.get_daily_three`:
pending, eligible, non-duplicate, not shown today
(`last_shown_date IS NULL OR last_shown_date < today`),
`ORDER BY quality_score DESC, RANDOM() LIMIT 50`. -/
def dailyThreeCandidates (st : UtilsState) (today : String) (rnd : Insight → Nat) :
    List Insight :=
  (stableSort (dailyThreeLe rnd)
    (st.insights.filter (fun i =>
      i.status = "pending" && i.useful_for_daily && !i.is_duplicate &&
      (match i.last_shown_date with
       | none => true
       | some d => listStrLt d.data today.data)))).take 50

/-- `BrainGymUtils.get_daily_three`: with at most 3 candidates they are
returned as-is (no marking); otherwise 3 are chosen with variety and each is
stamped `last_shown_date = today`. -/
def get_daily_three (st : UtilsState) (today : String) (rnd : Insight → Nat) :
    PyRes (List Insight × UtilsState) :=
  let candidates := dailyThreeCandidates st today rnd
  if candidates.length ≤ 3 then Except.ok (candidates, st)
  else
    match ensure_variety_utils candidates 3 with
    | Except.ok selected => Except.ok (selected, markShown st selected today)
    | Except.error e => Except.error e

/-! ## `database_v2.py` — `BrainGymDBV2` -/

/-- First diversity pass of `BrainGymDBV2._ensure_variety`: keyed on
`source_type` and the first comma-separated tag.  Accessing
`insight.get("tags", "").split(",")` raises `AttributeError` when the tags
column is NULL, modelled by `PyFail.raised`. -/
def firstPassV2 (count : Nat) :
    List Insight → List Insight → List String → List String → PyRes (List Insight)
  | [], sel, _, _ => Except.ok sel
  | i :: rest, sel, usedTypes, usedPrimary =>
    if count ≤ sel.length then Except.ok sel
    else
      match i.tags with
      | none => Except.error PyFail.raised
      | some tg =>
        let primary := (splitComma tg).headD ""
        if ¬ optMem i.source_type usedTypes ∨ primary ∉ usedPrimary then
          firstPassV2 count rest (sel ++ [i])
            (if optTruthy i.source_type then (i.source_type.getD "") :: usedTypes
             else usedTypes)
            (if primary ≠ "" then primary :: usedPrimary else usedPrimary)
        else firstPassV2 count rest sel usedTypes usedPrimary

/-- The fueled fill loop of `BrainGymDBV2._ensure_variety`: each `while`
iteration appends the first candidate not yet selected (by value) and breaks
out of the `for`; when no such candidate exists the iteration is a no-op and
the source loops forever. -/
def fillLoopV2 [DecidableEq α] (count : Nat) (items : List α) (fuel : Nat)
    (sel : List α) : Option (List α) :=
  if sel.length < count ∧ sel.length < items.length then
    match fuel with
    | 0 => none
    | f + 1 =>
      match items.find? (fun i => !(decide (i ∈ sel))) with
      | some i => fillLoopV2 count items f (sel ++ [i])
      | none => fillLoopV2 count items f sel
  else some sel

/-- `BrainGymDBV2._ensure_variety`. -/
def ensure_variety_v2 (candidates : List Insight) (count : Nat) :
    PyRes (List Insight) :=
  if candidates.length ≤ count then Except.ok candidates
  else
    match firstPassV2 count candidates [] [] [] with
    | Except.error e => Except.error e
    | Except.ok sel =>
      match fillLoopV2 count candidates (count + candidates.length + 2) sel with
      | some s => Except.ok (s.take count)
      | none => Except.error PyFail.fuel

/-- A row of the `daily_sessions` table.  `insights_shown` is a TEXT column
holding comma-joined ids; the model carries the parsed id list (the empty
list standing for NULL or the empty string, both falsy in the source). -/
structure SessionRow where
  session_date : String
  insights_shown : List Nat
deriving DecidableEq, Repr

/-- The state touched by `BrainGymDBV2.get_daily_insights`. -/
structure DBV2State where
  insights : List Insight
  daily_sessions : List SessionRow
deriving DecidableEq, Repr

/-- `INSERT OR REPLACE INTO daily_sessions` keyed by the UNIQUE
`session_date`. -/
def upsertSession (sessions : List SessionRow) (today : String) (ids : List Nat) :
    List SessionRow :=
  SessionRow.mk today ids :: sessions.filter (fun s => s.session_date ≠ today)

/-- `ORDER BY quality_score DESC, times_skipped ASC, RANDOM()`. -/
def dailyV2Le (rnd : Insight → Nat) (a b : Insight) : Bool :=
  if optIntLt a.quality_score b.quality_score then false
  else if optIntLt b.quality_score a.quality_score then true
  else if a.times_skipped < b.times_skipped then true
  else if b.times_skipped < a.times_skipped then false
  else rnd a ≤ rnd b

/-- The fresh-selection candidate query of `get_daily_insights`:
`archived = 0 AND status = 'pending' AND (last_shown_date IS NULL OR
last_shown_date != today)`, ordered as above, `LIMIT count * 3`.
Note: no `useful_for_daily` condition. -/
def dailyV2Candidates (st : DBV2State) (today : String) (rnd : Insight → Nat)
    (count : Nat) : List Insight :=
  (stableSort (dailyV2Le rnd)
    (st.insights.filter (fun i =>
      !i.archived && i.status = "pending" &&
      (match i.last_shown_date with
       | none => true
       | some d => d ≠ today)))).take (count * 3)

/-- `BrainGymDBV2.get_daily_insights`: return today's already-recorded
selection when one exists (`SELECT * FROM insights WHERE id IN (...)`, in
table order), else select fresh candidates, apply diversity, record the
session row and stamp `last_shown_date`. -/
def get_daily_insights (st : DBV2State) (today : String) (rnd : Insight → Nat)
    (count : Nat) : PyRes (List Insight × DBV2State) :=
  let stored := st.daily_sessions.find? (fun s => s.session_date = today)
  match stored with
  | some sess =>
    if sess.insights_shown ≠ [] then
      Except.ok (st.insights.filter (fun i => i.id ∈ sess.insights_shown), st)
    else
      dailySelectNew st today rnd count
  | none => dailySelectNew st today rnd count
where
  /-- The fresh-selection branch. -/
  dailySelectNew (st : DBV2State) (today : String) (rnd : Insight → Nat)
      (count : Nat) : PyRes (List Insight × DBV2State) :=
    let candidates := dailyV2Candidates st today rnd count
    match ensure_variety_v2 candidates count with
    | Except.error e => Except.error e
    | Except.ok selected =>
      let ids := selected.map Insight.id
      let sessions := upsertSession st.daily_sessions today ids
      let insights := st.insights.map (fun i =>
        if i.id ∈ ids then { i with last_shown_date := some today } else i)
      Except.ok (selected, DBV2State.mk insights sessions)

/-! ## `query_engine.py` — `QueryEngine` -/

/-- The ephemeral classification structure.  The fields are optional because
the primary path parses whatever JSON object the completion service emitted,
which may omit any key. -/
structure Classification where
  type : Option String := none
  intent : Option String := none
  key_concepts : Option (List String) := none
  timeframe : Option String := none
  output_format : Option String := none
deriving DecidableEq, Repr

/-- The out-of-scope completion service (`anthropic` client), as a black
box: `classifyResult` is the composite of `messages.create` on the
classification prompt, the `re.search` block extraction and `json.loads`
(`none` when the call raised or no JSON object was found — both caught in
the source), and `complete` is `messages.create` returning text for the
handler prompts. -/
structure CompletionClient where
  classifyResult : String → Option Classification
  complete : String → String

/-- The fallback classification of `QueryEngine.classify_query`, returned
both when no client is configured and when the primary path fails. -/
def fallbackClassification (query : String) : Classification :=
  Classification.mk (some "recall") (some query) (some []) (some "all_time") (some "text")

/-- The classification prompt (content irrelevant to the verified
properties; kept as an opaque-but-concrete string builder). -/
def classifyPrompt (query : String) : String :=
  "Classify this query and extract the intent. Query: " ++ query ++
  ". Classify as ONE of: recall, synthesis, pattern, decision, generate, explore. Return JSON only."

/-- `QueryEngine.classify_query`. -/
def classify_query (client : Option CompletionClient) (query : String) : Classification :=
  match client with
  | none => fallbackClassification query
  | some c =>
    match c.classifyResult (classifyPrompt query) with
    | some cl => cl
    | none => fallbackClassification query

/-- Rendering of a nullable category inside an f-string (`str(None)` is the
Python string `None`). -/
def optCatShow : Option String → String
  | none => "None"
  | some s => s

/-- One item block of `QueryEngine._build_context`.  The JSON-array branch of
the tag normalization (`json.loads` for a value starting with `[`) is
abstracted into the comma-split branch; no verified property reads the
produced text. -/
def contextPart (idx : Nat) (i : Insight) : String :=
  let p1 := "\n--- Item " ++ toString idx ++ " ---\nType: " ++
    optCatShow i.content_category ++ "\n"
  let shared := pyOrStr i.shared_date ""
  let p2 := if 10 ≤ shared.length then "Saved: " ++ strTake shared 10 ++ "\n" else ""
  let p3 := if optTruthy i.source_url then "Source: " ++ (i.source_url.getD "") ++ "\n" else ""
  let tagsL := parseTags i
  let p4 := if tagsL ≠ [] then "Tags: " ++ String.intercalate ", " (tagsL.take 5) ++ "\n"
    else ""
  let text := pyOrStr i.extracted_text (pyOrStr i.content "")
  let text2 := if 1500 < text.length then strTake text 1500 ++ "..." else text
  p1 ++ p2 ++ p3 ++ p4 ++ "\nContent:\n" ++ text2

/-- `QueryEngine._build_context`. -/
def build_context (insights : List Insight) : String :=
  String.intercalate "\n" ((insights.enumFrom 1).map (fun p => contextPart p.1 p.2))

/-- A row of a `semantic_search` result as seen by the handlers, projected
back to the underlying insight dict (the extra `similarity_score` key plays
no further role). -/
def semInsights (l : List SemResult) : List Insight :=
  l.map SemResult.insight

/-- A row of the `syntheses` table. -/
structure SynthRow where
  id : Nat
  user_id : Option Int
  query : String
  synthesis_text : String
  source_insights : List Nat
deriving DecidableEq, Repr

/-- The state touched by `QueryEngine`: the `syntheses` table (the insights
table is read-only for the router). -/
structure QEState where
  syntheses : List SynthRow
deriving DecidableEq, Repr

/-- `QueryEngine._save_synthesis`: insert a row and return `lastrowid`
(AUTOINCREMENT, modelled as one past the current row count). -/
def save_synthesis (st : QEState) (query text : String) (ids : List Nat)
    (uid : Option Int) : Nat × QEState :=
  let sid := st.syntheses.length + 1
  (sid, QEState.mk (st.syntheses ++ [SynthRow.mk sid uid query text ids]))

/-- Library statistics of `QueryEngine._get_library_stats`. -/
structure LibStats where
  total : Nat
  articles : Nat
  notes : Nat
  videos : Nat
  social : Nat
  top_topics : List String
deriving DecidableEq, Repr

/-- Accumulator pass of `firstDedup`: keep elements not yet seen. -/
def firstDedupAux [DecidableEq α] (seen : List α) : List α → List α
  | [] => []
  | a :: l => if a ∈ seen then firstDedupAux seen l else a :: firstDedupAux (a :: seen) l

/-- Deduplication keeping first occurrences (insertion order of a Python
dict / `collections.Counter`). -/
def firstDedup [DecidableEq α] (l : List α) : List α :=
  firstDedupAux [] l

/-- Occurrence count of one tag. -/
def countOcc [DecidableEq α] (a : α) (l : List α) : Nat :=
  (l.filter (fun x => x = a)).length

/-- `Counter(all_tags).most_common(10)`: tags sorted by count descending,
ties in first-occurrence order. -/
def topTopics (allTags : List String) : List String :=
  (sortDescBy (fun t => countOcc t allTags) (firstDedup allTags)).take 10

/-- The flattened tag list of `_get_library_stats` (rows with a truthy tags
column, comma-split, stripped, blanks dropped; the `json.loads` branch for a
value starting with `[` is abstracted into the same split). -/
def statsTags (useful : List Insight) : List String :=
  (useful.filterMap (fun i => if optTruthy i.tags then some (i.tags.getD "") else none)).flatMap
    (fun t => ((splitComma t).map pyStrip).filter (fun x => x ≠ ""))

/-- Count of one category among the eligible rows. -/
def countCat (useful : List Insight) (c : String) : Nat :=
  (useful.filter (fun i => i.content_category = some c)).length

/-- `QueryEngine._get_library_stats`. -/
def get_library_stats (table : List Insight) : LibStats :=
  let useful := table.filter (fun i => i.useful_for_daily)
  LibStats.mk useful.length (countCat useful "article") (countCat useful "my_note")
    (countCat useful "video") (countCat useful "social_reference")
    (topTopics (statsTags useful))

/-- The category key of `_get_diverse_sample`
(`insight.get("content_category") or "other"`). -/
def sampleCat (r : SemResult) : String :=
  pyOrStr r.insight.content_category "other"

/-- The per-category walk of `_get_diverse_sample`: two items per category in
dict insertion order, stopping once `n` are collected. -/
def sampleAux (insights : List SemResult) (n : Nat) :
    List String → List SemResult → List SemResult
  | [], acc => acc
  | c :: cs, acc =>
    let acc2 := acc ++ (insights.filter (fun r => sampleCat r = c)).take 2
    if n ≤ acc2.length then acc2 else sampleAux insights n cs acc2

/-- `QueryEngine._get_diverse_sample`. -/
def get_diverse_sample (insights : List SemResult) (n : Nat) : List SemResult :=
  (sampleAux insights n (firstDedup (insights.map sampleCat)) []).take n

/-- The structured response of `QueryEngine.route_query` and of each
handler: a Python dict with the keys below, a `none` field standing for an
absent key. -/
structure RouteResult where
  type : String
  response : Option String := none
  insights : Option (List SemResult) := none
  query : Option String := none
  synthesis_id : Option Nat := none
  stats : Option LibStats := none
  sample : Option (List SemResult) := none
  redirect : Option String := none
  topic : Option String := none
deriving Repr

/-- The recall prompt (text irrelevant to the verified properties). -/
def recallPrompt (query context : String) : String :=
  "The user is trying to recall information from their knowledge library. Query: " ++
  query ++ ". Relevant saved items: " ++ context

/-- `QueryEngine.handle_recall`. -/
def handle_recall (client : Option CompletionClient) (query : String)
    (insights : List SemResult) (_classification : Classification) : RouteResult :=
  let top := insights.take 5
  let context := build_context (semInsights top)
  match client with
  | none =>
    { type := "recall"
      response := some ("No AI configured. Here are relevant items from your library.\n\n" ++
        strTake context 2000)
      insights := some top
      query := some query }
  | some c =>
    { type := "recall"
      response := some (c.complete (recallPrompt query context))
      insights := some top
      query := some query }

/-- The synthesis prompt. -/
def synthesisPrompt (query context : String) : String :=
  "The user wants to synthesize knowledge from their library. Query: " ++ query ++
  ". Their saved knowledge on this topic: " ++ context

/-- `QueryEngine.handle_synthesis`: builds the synthesis text (AI or
fallback concatenation), persists a `Synthesis` row in either case, returns
its id. -/
def handle_synthesis (client : Option CompletionClient) (query : String)
    (insights : List SemResult) (_classification : Classification)
    (userId : Option Int) (st : QEState) : RouteResult × QEState :=
  let top := insights.take 15
  let context := build_context (semInsights top)
  let synthesisText :=
    match client with
    | none => "AI not configured. Your relevant items:\n\n" ++ strTake context 3000
    | some c => c.complete (synthesisPrompt query context)
  let idsAndSt := save_synthesis st query synthesisText
    ((semInsights top).map Insight.id) userId
  ({ type := "synthesis"
     response := some synthesisText
     insights := some top
     synthesis_id := some idsAndSt.1
     query := some query }, idsAndSt.2)

/-- The pattern prompt. -/
def patternPrompt (query context : String) : String :=
  "The user wants to identify patterns in their knowledge. Query: " ++ query ++
  ". Their relevant saved content: " ++ context

/-- `QueryEngine.handle_pattern`. -/
def handle_pattern (client : Option CompletionClient) (query : String)
    (insights : List SemResult) (_classification : Classification) : RouteResult :=
  let top := insights.take 20
  let context := build_context (semInsights top)
  match client with
  | none =>
    { type := "pattern"
      response := some ("AI not configured. Review the " ++ toString top.length ++
        " relevant items above for patterns.")
      insights := some top
      query := some query }
  | some c =>
    { type := "pattern"
      response := some (c.complete (patternPrompt query context))
      insights := some top
      query := some query }

/-- The decision prompt. -/
def decisionPrompt (query context : String) : String :=
  "The user is making a decision and needs context from their knowledge. Query: " ++
  query ++ ". Relevant knowledge from their library: " ++ context

/-- `QueryEngine.handle_decision`. -/
def handle_decision (client : Option CompletionClient) (query : String)
    (insights : List SemResult) (_classification : Classification) : RouteResult :=
  let top := insights.take 15
  let context := build_context (semInsights top)
  match client with
  | none =>
    { type := "decision"
      response := some "AI not configured. Here are relevant items from your library for this decision."
      insights := some top
      query := some query }
  | some c =>
    { type := "decision"
      response := some (c.complete (decisionPrompt query context))
      insights := some top
      query := some query }

/-- `QueryEngine.handle_generate`: no completion call; a redirect signal with
the extracted topic (the classification intent when present — the
list-valued-intent guard of the source is absorbed by the string-typed
model, and a JSON-null intent is conflated with an absent one) and the top
10 results. -/
def handle_generate (query : String) (insights : List SemResult)
    (classification : Classification) : RouteResult :=
  let topic := classification.intent.getD query
  { type := "generate"
    redirect := some "/"
    topic := some (if topic ≠ "" then strTake topic 200 else query)
    insights := some (insights.take 10) }

/-- The explore prompt. -/
def explorePrompt (query : String) (stats : LibStats) (context : String) : String :=
  "The user wants to explore their knowledge library. Query: " ++ query ++
  ". Total items: " ++ toString stats.total ++ ". Top topics: " ++
  String.intercalate ", " (stats.top_topics.take 5) ++ ". Sample: " ++ context

/-- `QueryEngine.handle_explore`: library statistics plus a diversity-sampled
preview.  Note the returned structure has `stats` and `sample` keys but no
`insights` key. -/
def handle_explore (client : Option CompletionClient) (query : String)
    (insights : List SemResult) (_classification : Classification)
    (table : List Insight) : RouteResult :=
  let stats := get_library_stats table
  let sample := get_diverse_sample insights 10
  let context := build_context (semInsights sample)
  match client with
  | none =>
    { type := "explore"
      response := some ("Your library has " ++ toString stats.total ++
        " items. Top topics: " ++ String.intercalate ", " (stats.top_topics.take 5) ++ ".")
      stats := some stats
      sample := some sample
      query := some query }
  | some c =>
    { type := "explore"
      response := some (c.complete (explorePrompt query stats context))
      stats := some stats
      sample := some sample
      query := some query }

/-- `QueryEngine.route_query`: classify, run semantic search with limit 20,
dispatch on the classification type, falling back to the recall handler for
anything outside the six known types. -/
def route_query (client : Option CompletionClient) (query : String)
    (embConfigured : Bool) (queryEmbedding : Option (List ℚ))
    (simFn : List ℚ → List ℚ → ℚ) (table : List Insight) (userId : Option Int)
    (trialKey : Option String) (hasTrialCol hasUserCol : Bool) (st : QEState) :
    RouteResult × QEState :=
  let classification := classify_query client query
  let queryType := classification.type.getD "recall"
  let relevant := semantic_search embConfigured queryEmbedding simFn table userId
    trialKey hasTrialCol hasUserCol 20
  if queryType = "recall" then (handle_recall client query relevant classification, st)
  else if queryType = "synthesis" then
    handle_synthesis client query relevant classification userId st
  else if queryType = "pattern" then (handle_pattern client query relevant classification, st)
  else if queryType = "decision" then (handle_decision client query relevant classification, st)
  else if queryType = "generate" then (handle_generate query relevant classification, st)
  else if queryType = "explore" then
    (handle_explore client query relevant classification table, st)
  else (handle_recall client query relevant classification, st)

/-! ## Library lemmas about the stable sort -/

theorem mem_insertOrdered (le : α → α → Bool) (a x : α) (l : List α) :
    x ∈ insertOrdered le a l ↔ x = a ∨ x ∈ l := by
  induction l with
  | nil => simp [insertOrdered]
  | cons b t ih =>
    simp only [insertOrdered]
    split
    · simp [List.mem_cons]
    · simp only [List.mem_cons, ih]
      tauto

theorem length_insertOrdered (le : α → α → Bool) (a : α) (l : List α) :
    (insertOrdered le a l).length = l.length + 1 := by
  induction l with
  | nil => rfl
  | cons b t ih =>
    simp only [insertOrdered]
    split
    · simp
    · simp [ih]

theorem mem_stableSort (le : α → α → Bool) (l : List α) (x : α) :
    x ∈ stableSort le l ↔ x ∈ l := by
  induction l with
  | nil => simp [stableSort]
  | cons a t ih => simp [stableSort, mem_insertOrdered, ih]

theorem length_stableSort (le : α → α → Bool) (l : List α) :
    (stableSort le l).length = l.length := by
  induction l with
  | nil => rfl
  | cons a t ih => simp [stableSort, length_insertOrdered, ih]

theorem stableSort_eq_nil_iff (le : α → α → Bool) (l : List α) :
    stableSort le l = [] ↔ l = [] := by
  constructor
  · intro h
    have := length_stableSort le l
    rw [h] at this
    exact List.length_eq_zero.mp this.symm
  · intro h
    subst h
    rfl

theorem pairwise_insertOrdered_key [LinearOrder β] (k : α → β) (a : α) (l : List α)
    (h : l.Pairwise (fun x y => k y ≤ k x)) :
    (insertOrdered (keyGe k) a l).Pairwise (fun x y => k y ≤ k x) := by
  induction l with
  | nil => simp [insertOrdered]
  | cons b t ih =>
    rw [List.pairwise_cons] at h
    obtain ⟨hb, ht⟩ := h
    simp only [insertOrdered, keyGe]
    split
    · rename_i hle
      rw [decide_eq_true_eq] at hle
      refine List.Pairwise.cons ?_ (List.Pairwise.cons hb ht)
      intro x hx
      rcases List.mem_cons.mp hx with rfl | hx
      · exact hle
      · exact le_trans (hb x hx) hle
    · rename_i hle
      rw [decide_eq_true_eq] at hle
      refine List.Pairwise.cons ?_ (ih ht)
      intro x hx
      rcases (mem_insertOrdered _ a x t).mp hx with rfl | hx
      · exact le_of_lt (lt_of_not_le hle)
      · exact hb x hx

theorem pairwise_sortDescBy [LinearOrder β] (k : α → β) (l : List α) :
    (sortDescBy k l).Pairwise (fun x y => k y ≤ k x) := by
  induction l with
  | nil => exact List.Pairwise.nil
  | cons a t ih => exact pairwise_insertOrdered_key k a _ ih

theorem filter_insertOrdered_key [LinearOrder β] (k : α → β) (s : β) (a : α) (l : List α) :
    (insertOrdered (keyGe k) a l).filter (fun x => k x = s) =
      if k a = s then a :: l.filter (fun x => k x = s)
      else l.filter (fun x => k x = s) := by
  induction l with
  | nil =>
    simp only [insertOrdered, List.filter]
    split <;> simp_all
  | cons b t ih =>
    simp only [insertOrdered, keyGe]
    split
    · rename_i hle
      simp only [List.filter_cons]
      split <;> split <;> simp_all
    · rename_i hle
      rw [decide_eq_true_eq] at hle
      have hab : k b ≠ k a := fun hEq => hle (le_of_eq hEq)
      simp only [List.filter_cons, ih]
      by_cases hbs : k b = s
      · have has : ¬ k a = s := fun hc => hab (hbs.trans hc.symm)
        simp [hbs, has]
      · by_cases has : k a = s <;> simp [hbs, has]

theorem filter_sortDescBy_key [LinearOrder β] (k : α → β) (s : β) (l : List α) :
    (sortDescBy k l).filter (fun x => k x = s) = l.filter (fun x => k x = s) := by
  induction l with
  | nil => rfl
  | cons a t ih =>
    have step : sortDescBy k (a :: t) = insertOrdered (keyGe k) a (sortDescBy k t) := rfl
    rw [step, filter_insertOrdered_key, List.filter_cons]
    by_cases has : k a = s <;> simp [has, ih]

/-! ## Lemmas about the diversity-selection loops -/


theorem fillSweep_spec [DecidableEq α] (limit : Nat) :
    ∀ (items sel : List α), ∃ t, fillSweep limit items sel = sel ++ t ∧
      (∀ x ∈ t, x ∈ items) ∧
      (sel.Nodup → (sel ++ t).Nodup) ∧
      (limit ≤ (sel ++ t).length ∨ ∀ i ∈ items, i ∈ sel ++ t) := by
  intro items
  induction items with
  | nil =>
    intro sel
    exact ⟨[], by simp [fillSweep]⟩
  | cons i rest ih =>
    intro sel
    by_cases hmem : i ∈ sel
    · obtain ⟨t, heq, hsub, hnd, hcov⟩ := ih sel
      refine ⟨t, ?_, ?_, hnd, ?_⟩
      · simpa [fillSweep, hmem] using heq
      · exact fun x hx => List.mem_cons_of_mem _ (hsub x hx)
      · rcases hcov with h | h
        · exact Or.inl h
        · refine Or.inr fun x hx => ?_
          rcases List.mem_cons.mp hx with rfl | hx
          · exact List.mem_append_left t hmem
          · exact h x hx
    · by_cases hlim : limit ≤ (sel ++ [i]).length
      · refine ⟨[i], ?_, ?_, ?_, Or.inl hlim⟩
        · simp only [fillSweep, if_neg hmem]
          rw [if_pos hlim]
        · simp
        · intro hnd
          simpa using List.Nodup.concat hmem hnd
      · obtain ⟨t, heq, hsub, hnd, hcov⟩ := ih (sel ++ [i])
        refine ⟨i :: t, ?_, ?_, ?_, ?_⟩
        · simp only [fillSweep, if_neg hmem]
          rw [if_neg hlim, heq]
          simp
        · intro x hx
          rcases List.mem_cons.mp hx with rfl | hx
          · exact List.mem_cons_self x rest
          · exact List.mem_cons_of_mem _ (hsub x hx)
        · intro hselnd
          have h1 : (sel ++ [i]).Nodup := by simpa using List.Nodup.concat hmem hselnd
          have h2 := hnd h1
          simpa using h2
        · rcases hcov with h | h
          · left
            simpa using h
          · right
            intro x hx
            rcases List.mem_cons.mp hx with rfl | hx
            · have h3 : x ∈ sel ++ [x] := by simp
              have h2 := List.mem_append_left t h3
              simp only [List.append_assoc] at h2 ⊢
              exact h2
            · have h2 := h x hx
              simpa using h2

theorem fillLoop_stop [DecidableEq α] (limit : Nat) (items : List α) (fuel : Nat)
    (sel : List α) (h : ¬(sel.length < limit ∧ sel.length < items.length)) :
    fillLoop limit items fuel sel = some sel := by
  rw [fillLoop.eq_def]
  exact if_neg h

theorem fillLoop_step [DecidableEq α] (limit : Nat) (items : List α) (f : Nat)
    (sel : List α) (h : sel.length < limit ∧ sel.length < items.length) :
    fillLoop limit items (f + 1) sel = fillLoop limit items f (fillSweep limit items sel) := by
  rw [fillLoop.eq_def]
  rw [if_pos h]

theorem fillLoop_ok [DecidableEq α] (limit : Nat) (items : List α) (hN : items.Nodup)
    (fuel : Nat) (h2 : 2 ≤ fuel) (sel : List α) (hsub : ∀ x ∈ sel, x ∈ items)
    (hnd : sel.Nodup) :
    ∃ r, fillLoop limit items fuel sel = some r ∧ r.Nodup ∧ (∀ x ∈ r, x ∈ items) ∧
      ¬(r.length < limit ∧ r.length < items.length) := by
  by_cases hguard : sel.length < limit ∧ sel.length < items.length
  · obtain ⟨f, rfl⟩ : ∃ f, fuel = f + 1 := ⟨fuel - 1, by omega⟩
    obtain ⟨t, heq, htsub, htnd, hcov⟩ := fillSweep_spec limit items sel
    have hr1nd : (sel ++ t).Nodup := htnd hnd
    have hr1sub : ∀ x ∈ sel ++ t, x ∈ items := by
      intro x hx
      rcases List.mem_append.mp hx with hx | hx
      · exact hsub x hx
      · exact htsub x hx
    have hnoguard : ¬((sel ++ t).length < limit ∧ (sel ++ t).length < items.length) := by
      rcases hcov with h | h
      · omega
      · intro hg
        have := (hN.subperm (fun x hx => h x hx)).length_le
        omega
    refine ⟨sel ++ t, ?_, hr1nd, hr1sub, hnoguard⟩
    rw [fillLoop_step limit items f sel hguard, heq, fillLoop_stop limit items f _ hnoguard]
  · exact ⟨sel, fillLoop_stop limit items fuel sel hguard, hnd, hsub, hguard⟩

theorem fillLoop_subset [DecidableEq α] (limit : Nat) (items : List α) :
    ∀ (fuel : Nat) (sel r : List α), fillLoop limit items fuel sel = some r →
      ∀ x ∈ r, x ∈ sel ∨ x ∈ items := by
  intro fuel
  induction fuel with
  | zero =>
    intro sel r h
    by_cases hguard : sel.length < limit ∧ sel.length < items.length
    · rw [fillLoop.eq_def, if_pos hguard] at h
      exact absurd h (by simp)
    · rw [fillLoop_stop limit items 0 sel hguard] at h
      cases h
      exact fun x hx => Or.inl hx
  | succ f ih =>
    intro sel r h
    by_cases hguard : sel.length < limit ∧ sel.length < items.length
    · rw [fillLoop_step limit items f sel hguard] at h
      obtain ⟨t, heq, htsub, _, _⟩ := fillSweep_spec limit items sel
      rw [heq] at h
      intro x hx
      rcases ih (sel ++ t) r h x hx with hx2 | hx2
      · rcases List.mem_append.mp hx2 with hx3 | hx3
        · exact Or.inl hx3
        · exact Or.inr (htsub x hx3)
      · exact Or.inr hx2
    · rw [fillLoop_stop limit items _ sel hguard] at h
      cases h
      exact fun x hx => Or.inl hx

theorem fillLoopV2_stop [DecidableEq α] (count : Nat) (items : List α) (fuel : Nat)
    (sel : List α) (h : ¬(sel.length < count ∧ sel.length < items.length)) :
    fillLoopV2 count items fuel sel = some sel := by
  rw [fillLoopV2.eq_def]
  exact if_neg h

theorem fillLoopV2_ok [DecidableEq α] (count : Nat) (items : List α) (hN : items.Nodup)
    (hcnt : count < items.length) :
    ∀ (fuel : Nat) (sel : List α), (∀ x ∈ sel, x ∈ items) → sel.Nodup →
      sel.length ≤ count → count ≤ fuel + sel.length →
    ∃ r, fillLoopV2 count items fuel sel = some r ∧ r.length = count ∧ r.Nodup ∧
      ∀ x ∈ r, x ∈ items := by
  intro fuel
  induction fuel with
  | zero =>
    intro sel hsub hnd hlen hfuel
    have hstop : ¬(sel.length < count ∧ sel.length < items.length) := by omega
    exact ⟨sel, fillLoopV2_stop count items 0 sel hstop, by omega, hnd, hsub⟩
  | succ f ih =>
    intro sel hsub hnd hlen hfuel
    by_cases hguard : sel.length < count ∧ sel.length < items.length
    · have hex : ∃ x ∈ items, (!(decide (x ∈ sel))) = true := by
        by_contra hall
        push_neg at hall
        have hsubset : ∀ x ∈ items, x ∈ sel := by
          intro x hx
          have := hall x hx
          simpa using this
        have := (hN.subperm hsubset).length_le
        omega
      obtain ⟨i0, hfind⟩ : ∃ i0, items.find? (fun i => !(decide (i ∈ sel))) = some i0 := by
        rcases ho : items.find? (fun i => !(decide (i ∈ sel))) with _ | i0
        · rw [List.find?_eq_none] at ho
          obtain ⟨x, hx, hpx⟩ := hex
          exact absurd hpx (by simpa using ho x hx)
        · exact ⟨i0, rfl⟩
      have hi0p := List.find?_some hfind
      have hi0mem : i0 ∈ items := List.mem_of_find?_eq_some hfind
      have hi0notsel : i0 ∉ sel := by simpa using hi0p
      have hstep : fillLoopV2 count items (f + 1) sel =
          fillLoopV2 count items f (sel ++ [i0]) := by
        rw [fillLoopV2.eq_def, if_pos hguard, hfind]
      obtain ⟨r, hr, hrlen, hrnd, hrsub⟩ := ih (sel ++ [i0])
        (by
          intro x hx
          rcases List.mem_append.mp hx with hx | hx
          · exact hsub x hx
          · simp only [List.mem_singleton] at hx
            exact hx ▸ hi0mem)
        (by simpa using List.Nodup.concat hi0notsel hnd)
        (by simp; omega)
        (by simp; omega)
      exact ⟨r, hstep ▸ hr, hrlen, hrnd, hrsub⟩
    · have hc : sel.length = count := by omega
      exact ⟨sel, fillLoopV2_stop count items _ sel hguard, hc, hnd, hsub⟩

theorem fillLoopV2_shape [DecidableEq α] (count : Nat) (items : List α) :
    ∀ (fuel : Nat) (sel r : List α), fillLoopV2 count items fuel sel = some r →
      ∃ t, r = sel ++ t ∧ ∀ x ∈ t, x ∈ items := by
  intro fuel
  induction fuel with
  | zero =>
    intro sel r h
    by_cases hguard : sel.length < count ∧ sel.length < items.length
    · rw [fillLoopV2.eq_def, if_pos hguard] at h
      exact absurd h (by simp)
    · rw [fillLoopV2_stop count items 0 sel hguard] at h
      cases h
      exact ⟨[], by simp⟩
  | succ f ih =>
    intro sel r h
    by_cases hguard : sel.length < count ∧ sel.length < items.length
    · rw [fillLoopV2.eq_def, if_pos hguard] at h
      rcases hfind : items.find? (fun i => !(decide (i ∈ sel))) with _ | i0 <;>
        rw [hfind] at h
      · obtain ⟨t, rfl, ht⟩ := ih sel r h
        exact ⟨t, rfl, ht⟩
      · obtain ⟨t, rfl, ht⟩ := ih (sel ++ [i0]) r h
        refine ⟨i0 :: t, by simp, ?_⟩
        intro x hx
        rcases List.mem_cons.mp hx with rfl | hx
        · exact List.mem_of_find?_eq_some hfind
        · exact ht x hx
    · rw [fillLoopV2_stop count items _ sel hguard] at h
      cases h
      exact ⟨[], by simp⟩

theorem firstPassSearch_shape (limit : Nat) :
    ∀ (items sel : List ScoredInsight) (uc ud : List (Option String)),
      ∃ t, firstPassSearch limit items sel uc ud = sel ++ t ∧ t.Sublist items := by
  intro items
  induction items with
  | nil =>
    intro sel uc ud
    exact ⟨[], by simp [firstPassSearch]⟩
  | cons i rest ih =>
    intro sel uc ud
    rw [firstPassSearch]
    by_cases hlim : limit ≤ sel.length
    · rw [if_pos hlim]
      exact ⟨[], by simp, List.nil_sublist _⟩
    · rw [if_neg hlim]
      by_cases hcond : i.insight.content_category ∉ uc ∨
          extract_domain i.insight.source_url ∉ ud
      · rw [if_pos hcond]
        obtain ⟨t, heq, hsl⟩ := ih (sel ++ [i]) _ _
        exact ⟨i :: t, by simpa using heq, List.Sublist.cons₂ i hsl⟩
      · rw [if_neg hcond]
        obtain ⟨t, heq, hsl⟩ := ih sel uc ud
        exact ⟨t, heq, List.Sublist.cons i hsl⟩

theorem firstPassUtils_shape (count : Nat) :
    ∀ (items sel : List Insight) (uc ud : List String),
      ∃ t, firstPassUtils count items sel uc ud = sel ++ t ∧ t.Sublist items := by
  intro items
  induction items with
  | nil =>
    intro sel uc ud
    exact ⟨[], by simp [firstPassUtils]⟩
  | cons i rest ih =>
    intro sel uc ud
    rw [firstPassUtils]
    by_cases hlim : count ≤ sel.length
    · rw [if_pos hlim]
      exact ⟨[], by simp, List.nil_sublist _⟩
    · rw [if_neg hlim]
      by_cases hcond : ¬ optMem i.content_category uc ∨
          (if optTruthy i.source_url then utilsDomain (i.source_url.getD "") else "none") ∉ ud
      · rw [if_pos hcond]
        obtain ⟨t, heq, hsl⟩ := ih (sel ++ [i]) _ _
        exact ⟨i :: t, by simpa using heq, List.Sublist.cons₂ i hsl⟩
      · rw [if_neg hcond]
        obtain ⟨t, heq, hsl⟩ := ih sel uc ud
        exact ⟨t, heq, List.Sublist.cons i hsl⟩

theorem firstPassV2_shape (count : Nat) :
    ∀ (items sel : List Insight) (ut up : List String) (s : List Insight),
      firstPassV2 count items sel ut up = Except.ok s →
      ∃ t, s = sel ++ t ∧ t.Sublist items := by
  intro items
  induction items with
  | nil =>
    intro sel ut up s h
    rw [firstPassV2] at h
    cases h
    exact ⟨[], by simp, List.nil_sublist _⟩
  | cons i rest ih =>
    intro sel ut up s h
    rw [firstPassV2] at h
    by_cases hlim : count ≤ sel.length
    · rw [if_pos hlim] at h
      cases h
      exact ⟨[], by simp, List.nil_sublist _⟩
    · rw [if_neg hlim] at h
      rcases htg : i.tags with _ | tg <;> rw [htg] at h <;> dsimp only at h
      · exact absurd h (by simp)
      · by_cases hcond : ¬ optMem i.source_type ut ∨ (splitComma tg).headD "" ∉ up
        · rw [if_pos hcond] at h
          obtain ⟨t, heq, hsl⟩ := ih (sel ++ [i]) _ _ s h
          exact ⟨i :: t, by simpa using heq, List.Sublist.cons₂ i hsl⟩
        · rw [if_neg hcond] at h
          obtain ⟨t, heq, hsl⟩ := ih sel ut up s h
          exact ⟨t, heq, List.Sublist.cons i hsl⟩

theorem firstPassV2_ok (count : Nat) :
    ∀ (items : List Insight), (∀ i ∈ items, i.tags.isSome) →
    ∀ (sel : List Insight) (ut up : List String),
      ∃ s, firstPassV2 count items sel ut up = Except.ok s := by
  intro items
  induction items with
  | nil =>
    intro _ sel ut up
    exact ⟨sel, rfl⟩
  | cons i rest ih =>
    intro htags sel ut up
    rw [firstPassV2]
    by_cases hlim : count ≤ sel.length
    · rw [if_pos hlim]
      exact ⟨sel, rfl⟩
    · rw [if_neg hlim]
      rcases htg : i.tags with _ | tg
      · have := htags i (List.mem_cons_self i rest)
        rw [htg] at this
        exact absurd this (by simp)
      · dsimp only
        have hrest : ∀ j ∈ rest, j.tags.isSome :=
          fun j hj => htags j (List.mem_cons_of_mem i hj)
        by_cases hcond : ¬ optMem i.source_type ut ∨ (splitComma tg).headD "" ∉ up
        · rw [if_pos hcond]
          exact ih hrest (sel ++ [i]) _ _
        · rw [if_neg hcond]
          exact ih hrest sel ut up

theorem firstPassV2_len (count : Nat) :
    ∀ (items sel : List Insight) (ut up : List String) (s : List Insight),
      sel.length ≤ count → firstPassV2 count items sel ut up = Except.ok s →
      s.length ≤ count := by
  intro items
  induction items with
  | nil =>
    intro sel ut up s hle h
    rw [firstPassV2] at h
    cases h
    exact hle
  | cons i rest ih =>
    intro sel ut up s hle h
    rw [firstPassV2] at h
    by_cases hlim : count ≤ sel.length
    · rw [if_pos hlim] at h
      cases h
      exact hle
    · rw [if_neg hlim] at h
      rcases htg : i.tags with _ | tg <;> rw [htg] at h <;> dsimp only at h
      · exact absurd h (by simp)
      · by_cases hcond : ¬ optMem i.source_type ut ∨ (splitComma tg).headD "" ∉ up
        · rw [if_pos hcond] at h
          exact ih (sel ++ [i]) _ _ s (by simp; omega) h
        · rw [if_neg hcond] at h
          exact ih sel ut up s hle h

theorem ensure_variety_search_spec (insights : List ScoredInsight) (limit : Nat)
    (hN : insights.Nodup) :
    ∃ l, ensure_variety_search insights limit = Except.ok l ∧
      l.length = min limit insights.length ∧ (∀ x ∈ l, x ∈ insights) ∧ l.Nodup := by
  rw [ensure_variety_search]
  by_cases hle : insights.length ≤ limit
  · rw [if_pos hle]
    exact ⟨insights, rfl, (Nat.min_eq_right hle).symm, fun x hx => hx, hN⟩
  · rw [if_neg hle]
    obtain ⟨t, heq, hsl⟩ := firstPassSearch_shape limit insights [] [] []
    have hsel : firstPassSearch limit insights [] [] [] = t := by simpa using heq
    obtain ⟨r, hr, hrnd, hrsub, hrng⟩ := fillLoop_ok limit insights hN
      (insights.length + 2) (by omega) t (fun x hx => hsl.subset hx) (hsl.nodup hN)
    rw [hsel, hr]
    have hrlen : r.length ≤ insights.length := (hrnd.subperm hrsub).length_le
    have hlim : limit ≤ r.length := by omega
    refine ⟨r.take limit, rfl, ?_, ?_, (List.take_sublist _ _).nodup hrnd⟩
    · rw [List.length_take]
      omega
    · exact fun x hx => hrsub x (List.take_subset _ _ hx)

theorem ensure_variety_utils_spec (candidates : List Insight) (count : Nat)
    (hN : candidates.Nodup) :
    ∃ l, ensure_variety_utils candidates count = Except.ok l ∧
      l.length = min count candidates.length ∧ (∀ x ∈ l, x ∈ candidates) ∧ l.Nodup := by
  rw [ensure_variety_utils]
  by_cases hle : candidates.length ≤ count
  · rw [if_pos hle]
    exact ⟨candidates, rfl, (Nat.min_eq_right hle).symm, fun x hx => hx, hN⟩
  · rw [if_neg hle]
    obtain ⟨t, heq, hsl⟩ := firstPassUtils_shape count candidates [] [] []
    have hsel : firstPassUtils count candidates [] [] [] = t := by simpa using heq
    obtain ⟨r, hr, hrnd, hrsub, hrng⟩ := fillLoop_ok count candidates hN
      (candidates.length + 2) (by omega) t (fun x hx => hsl.subset hx) (hsl.nodup hN)
    rw [hsel, hr]
    have hrlen : r.length ≤ candidates.length := (hrnd.subperm hrsub).length_le
    have hlim : count ≤ r.length := by omega
    refine ⟨r.take count, rfl, ?_, ?_, (List.take_sublist _ _).nodup hrnd⟩
    · rw [List.length_take]
      omega
    · exact fun x hx => hrsub x (List.take_subset _ _ hx)

theorem ensure_variety_v2_spec (candidates : List Insight) (count : Nat)
    (hN : candidates.Nodup) (htags : ∀ i ∈ candidates, i.tags.isSome) :
    ∃ l, ensure_variety_v2 candidates count = Except.ok l ∧
      l.length = min count candidates.length ∧ (∀ x ∈ l, x ∈ candidates) ∧ l.Nodup := by
  rw [ensure_variety_v2]
  by_cases hle : candidates.length ≤ count
  · rw [if_pos hle]
    exact ⟨candidates, rfl, (Nat.min_eq_right hle).symm, fun x hx => hx, hN⟩
  · rw [if_neg hle]
    obtain ⟨s, hs⟩ := firstPassV2_ok count candidates htags [] [] []
    obtain ⟨t, hteq, hsl⟩ := firstPassV2_shape count candidates [] [] [] s hs
    have hsl2 : s.Sublist candidates := by
      rw [show s = t by simpa using hteq]
      exact hsl
    rw [hs]
    dsimp only
    have hslen : s.length ≤ count := firstPassV2_len count candidates [] [] [] s
      (by simp) hs
    obtain ⟨r, hr, hrlen, hrnd, hrsub⟩ := fillLoopV2_ok count candidates hN (by omega)
      (count + candidates.length + 2) s (fun x hx => hsl2.subset hx) (hsl2.nodup hN)
      hslen (by omega)
    rw [hr]
    refine ⟨r.take count, rfl, ?_, ?_, (List.take_sublist _ _).nodup hrnd⟩
    · rw [List.length_take]
      omega
    · exact fun x hx => hrsub x (List.take_subset _ _ hx)

theorem ensure_variety_search_subset (insights : List ScoredInsight) (limit : Nat)
    (l : List ScoredInsight) (h : ensure_variety_search insights limit = Except.ok l) :
    ∀ x ∈ l, x ∈ insights := by
  rw [ensure_variety_search] at h
  by_cases hle : insights.length ≤ limit
  · rw [if_pos hle] at h
    cases h
    exact fun x hx => hx
  · rw [if_neg hle] at h
    obtain ⟨t, heq, hsl⟩ := firstPassSearch_shape limit insights [] [] []
    have hsel : firstPassSearch limit insights [] [] [] = t := by simpa using heq
    rw [hsel] at h
    rcases hloop : fillLoop limit insights (insights.length + 2) t with _ | r <;>
      rw [hloop] at h
    · exact absurd h (by simp)
    · cases h
      intro x hx
      have hx2 := List.take_subset _ _ hx
      rcases fillLoop_subset limit insights _ t r hloop x hx2 with hx3 | hx3
      · exact hsl.subset hx3
      · exact hx3

theorem ensure_variety_utils_subset (candidates : List Insight) (count : Nat)
    (l : List Insight) (h : ensure_variety_utils candidates count = Except.ok l) :
    ∀ x ∈ l, x ∈ candidates := by
  rw [ensure_variety_utils] at h
  by_cases hle : candidates.length ≤ count
  · rw [if_pos hle] at h
    cases h
    exact fun x hx => hx
  · rw [if_neg hle] at h
    obtain ⟨t, heq, hsl⟩ := firstPassUtils_shape count candidates [] [] []
    have hsel : firstPassUtils count candidates [] [] [] = t := by simpa using heq
    rw [hsel] at h
    rcases hloop : fillLoop count candidates (candidates.length + 2) t with _ | r <;>
      rw [hloop] at h
    · exact absurd h (by simp)
    · cases h
      intro x hx
      have hx2 := List.take_subset _ _ hx
      rcases fillLoop_subset count candidates _ t r hloop x hx2 with hx3 | hx3
      · exact hsl.subset hx3
      · exact hx3

theorem ensure_variety_v2_subset (candidates : List Insight) (count : Nat)
    (l : List Insight) (h : ensure_variety_v2 candidates count = Except.ok l) :
    ∀ x ∈ l, x ∈ candidates := by
  rw [ensure_variety_v2] at h
  by_cases hle : candidates.length ≤ count
  · rw [if_pos hle] at h
    cases h
    exact fun x hx => hx
  · rw [if_neg hle] at h
    rcases hfp : firstPassV2 count candidates [] [] [] with e | s <;> rw [hfp] at h
    · exact absurd h (by simp)
    · obtain ⟨t, hteq, hsl⟩ := firstPassV2_shape count candidates [] [] [] s hfp
      have hsl2 : s.Sublist candidates := by
        rw [show s = t by simpa using hteq]
        exact hsl
      dsimp only at h
      rcases hloop : fillLoopV2 count candidates (count + candidates.length + 2) s
        with _ | r <;> rw [hloop] at h
      · exact absurd h (by simp)
      · cases h
        intro x hx
        have hx2 := List.take_subset _ _ hx
        obtain ⟨u, rfl, hu⟩ := fillLoopV2_shape count candidates _ s r hloop
        rcases List.mem_append.mp hx2 with hx3 | hx3
        · exact hsl2.subset hx3
        · exact hu x hx3

theorem ensure_variety_search_len (insights : List ScoredInsight) (limit : Nat)
    (l : List ScoredInsight) (h : ensure_variety_search insights limit = Except.ok l) :
    l.length ≤ limit := by
  rw [ensure_variety_search] at h
  by_cases hle : insights.length ≤ limit
  · rw [if_pos hle] at h
    cases h
    exact hle
  · rw [if_neg hle] at h
    rcases hloop : fillLoop limit insights (insights.length + 2)
        (firstPassSearch limit insights [] [] []) with _ | r <;> rw [hloop] at h
    · exact absurd h (by simp)
    · cases h
      exact List.length_take_le limit r

/-! ## Membership facts: everything returned went through the WHERE filters -/

theorem bandL {a b : Bool} (h : (a && b) = true) : a = true := by
  cases a <;> simp_all

theorem bandR {a b : Bool} (h : (a && b) = true) : b = true := by
  cases a <;> simp_all

theorem mem_scoredList (table : List Insight) (topic : String) (r : ScoredInsight)
    (h : r ∈ scoredList table topic) :
    r.insight ∈ searchEligible table ∧ 0 < r.relevance_score := by
  rw [scoredList] at h
  obtain ⟨i, hi, hmk⟩ := List.mem_filterMap.mp h
  by_cases hs : 0 < calculate_relevance i topic (extract_keywords topic)
  · rw [if_pos hs] at hmk
    cases hmk
    exact ⟨hi, hs⟩
  · rw [if_neg hs] at hmk
    exact absurd hmk (by simp)

theorem mem_searchEligible (table : List Insight) (i : Insight)
    (h : i ∈ searchEligible table) : i.useful_for_daily = true := by
  rw [searchEligible] at h
  have := (List.mem_filter.mp h).2
  exact bandL this

theorem mem_scoredSorted (table : List Insight) (topic : String) (r : ScoredInsight)
    (h : r ∈ scoredSorted table topic) : r ∈ scoredList table topic := by
  rw [scoredSorted, sortDescBy] at h
  exact (mem_stableSort _ _ _).mp h

theorem search_member_eligible (table : List Insight) (topic : String) (lim : Nat)
    (l : List ScoredInsight) (h : ContentSearchEngine_search table topic lim = Except.ok l)
    (r : ScoredInsight) (hr : r ∈ l) : r.insight.useful_for_daily = true := by
  have h1 := ensure_variety_search_subset _ _ _ h r hr
  have h2 := mem_scoredList table topic r (mem_scoredSorted table topic r h1)
  exact mem_searchEligible table r.insight h2.1

theorem semantic_member_eligible (c : Bool) (qe : Option (List ℚ))
    (simFn : List ℚ → List ℚ → ℚ) (table : List Insight) (uid : Option Int)
    (tk : Option String) (h1 h2 : Bool) (lim : Nat) (r : SemResult)
    (hr : r ∈ semantic_search c qe simFn table uid tk h1 h2 lim) :
    r.insight.useful_for_daily = true := by
  rw [semantic_search.eq_def] at hr
  by_cases hc : c
  · rw [hc] at hr
    simp only [Bool.not_true, Bool.false_eq_true, if_false] at hr
    rcases qe with _ | v
    · exact absurd hr (by simp)
    · dsimp only at hr
      have hr2 := List.take_subset _ _ hr
      rw [sortDescBy] at hr2
      have hr3 := (mem_stableSort _ _ _).mp hr2
      rw [semanticScored] at hr3
      obtain ⟨i, hi, hmk⟩ := List.mem_filterMap.mp hr3
      rcases hemb : i.embedding with _ | e <;> rw [hemb] at hmk
      · exact absurd hmk (by simp)
      · rw [Option.map_some'] at hmk
        cases hmk
        rw [semanticCandidates] at hi
        have hi2 := (mem_stableSort _ _ _).mp hi
        have := (List.mem_filter.mp hi2).2
        exact bandL (bandL this)
  · simp [Bool.not_eq_true] at hc
    rw [hc] at hr
    exact absurd hr (by simp)

theorem daily_three_member_eligible (st : UtilsState) (today : String)
    (rnd : Insight → Nat) (sel : List Insight) (st1 : UtilsState)
    (h : get_daily_three st today rnd = Except.ok (sel, st1)) (i : Insight)
    (hi : i ∈ sel) : i.useful_for_daily = true := by
  have hcand : i ∈ dailyThreeCandidates st today rnd := by
    rw [get_daily_three] at h
    by_cases hle : (dailyThreeCandidates st today rnd).length ≤ 3
    · rw [if_pos hle] at h
      cases h
      exact hi
    · rw [if_neg hle] at h
      rcases hev : ensure_variety_utils (dailyThreeCandidates st today rnd) 3
          with e | selv <;> rw [hev] at h
      · exact absurd h (by simp)
      · cases h
        exact ensure_variety_utils_subset _ _ _ hev i hi
  rw [dailyThreeCandidates] at hcand
  have h2 := List.take_subset _ _ hcand
  have h3 := (mem_stableSort _ _ _).mp h2
  have h4 := (List.mem_filter.mp h3).2
  exact bandR (bandL (bandL h4))

/-! ## Facts about `get_daily_insights` needed for per-day idempotence -/

theorem find?_upsertSession (sessions : List SessionRow) (today : String)
    (ids : List Nat) :
    (upsertSession sessions today ids).find? (fun s => s.session_date = today) =
      some (SessionRow.mk today ids) := by
  rw [upsertSession]
  exact List.find?_cons_of_pos _ (by simp)

theorem ensure_variety_v2_nil (count : Nat) :
    ensure_variety_v2 [] count = Except.ok [] := by
  rw [ensure_variety_v2]
  simp

theorem ensure_variety_v2_zero (candidates : List Insight) :
    ensure_variety_v2 candidates 0 = Except.ok [] := by
  rw [ensure_variety_v2]
  rcases candidates with _ | ⟨i, rest⟩
  · simp
  · rw [if_neg (by simp)]
    have hfp : firstPassV2 0 (i :: rest) [] [] [] = Except.ok [] := by
      rw [firstPassV2]
      simp
    rw [hfp]
    dsimp only
    have hfl : fillLoopV2 0 (i :: rest) (0 + (i :: rest).length + 2) [] = some [] :=
      fillLoopV2_stop 0 (i :: rest) _ [] (by simp)
    rw [hfl]
    rfl

theorem ensure_variety_v2_ok_nil (candidates : List Insight) (count : Nat)
    (h : ensure_variety_v2 candidates count = Except.ok []) :
    candidates = [] ∨ count = 0 := by
  rw [ensure_variety_v2] at h
  by_cases hle : candidates.length ≤ count
  · rw [if_pos hle] at h
    cases h
    exact Or.inl rfl
  · rw [if_neg hle] at h
    by_cases hz : count = 0
    · exact Or.inr hz
    · exfalso
      rcases hfp : firstPassV2 count candidates [] [] [] with e | s <;> rw [hfp] at h
      · exact absurd h (by simp)
      · dsimp only at h
        rcases hloop : fillLoopV2 count candidates (count + candidates.length + 2) s
          with _ | r <;> rw [hloop] at h
        · exact absurd h (by simp)
        · dsimp only at h
          have hrt : r.take count = [] := by
            injection h
          rcases List.take_eq_nil_iff.mp hrt with h3 | h3
          · exact hz h3
          · subst h3
            obtain ⟨u, hu, _⟩ := fillLoopV2_shape count candidates _ s [] hloop
            have hs : s = [] := by
              rcases List.append_eq_nil.mp hu.symm with ⟨hs, _⟩
              exact hs
            subst hs
            rcases candidates with _ | ⟨i, rest⟩
            · simp at hle
            · rw [firstPassV2] at hfp
              rw [if_neg (by simpa using hz)] at hfp
              rcases htg : i.tags with _ | tg <;> rw [htg] at hfp <;> dsimp only at hfp
              · exact absurd hfp (by simp)
              · rw [if_pos (Or.inl (by rcases i.source_type with _ | s0 <;>
                  simp [optMem]))] at hfp
                obtain ⟨t, hteq, _⟩ := firstPassV2_shape count rest ([] ++ [i]) _ _ [] hfp
                simp at hteq

theorem dailyV2Candidates_subset (st : DBV2State) (today : String)
    (rnd : Insight → Nat) (count : Nat) (i : Insight)
    (h : i ∈ dailyV2Candidates st today rnd count) : i ∈ st.insights := by
  rw [dailyV2Candidates] at h
  have h2 := List.take_subset _ _ h
  have h3 := (mem_stableSort _ _ _).mp h2
  exact (List.mem_filter.mp h3).1

theorem stamp_preserves_id (ids : List Nat) (today : String) (i : Insight) :
    (if i.id ∈ ids then { i with last_shown_date := some today } else i).id = i.id := by
  split <;> rfl

theorem map_stamp_nil (l : List Insight) (today : String) :
    l.map (fun i => if i.id ∈ ([] : List Nat) then { i with last_shown_date := some today }
      else i) = l := by
  simp

theorem dailySelectNew_post (st : DBV2State) (today : String) (rnd : Insight → Nat)
    (count : Nat) (s1 : List Insight) (st1 : DBV2State)
    (h : get_daily_insights.dailySelectNew st today rnd count = Except.ok (s1, st1)) :
    ensure_variety_v2 (dailyV2Candidates st today rnd count) count = Except.ok s1 ∧
    st1.daily_sessions = upsertSession st.daily_sessions today (s1.map Insight.id) ∧
    st1.insights = st.insights.map (fun i =>
      if i.id ∈ s1.map Insight.id then { i with last_shown_date := some today }
      else i) := by
  rw [get_daily_insights.dailySelectNew] at h
  rcases hev : ensure_variety_v2 (dailyV2Candidates st today rnd count) count
    with e | selected <;> rw [hev] at h <;> dsimp only at h
  · exact absurd h (by simp)
  · simp only [Except.ok.injEq, Prod.mk.injEq] at h
    obtain ⟨rfl, rfl⟩ := h
    exact ⟨rfl, rfl, rfl⟩

theorem dailySelectNew_idem (st : DBV2State) (today : String) (r1 r2 : Insight → Nat)
    (count : Nat) (s1 : List Insight) (st1 : DBV2State)
    (h1 : get_daily_insights.dailySelectNew st today r1 count = Except.ok (s1, st1)) :
    ∃ s2 st2, get_daily_insights st1 today r2 count = Except.ok (s2, st2) ∧
      ∀ n, (n ∈ s2.map Insight.id ↔ n ∈ s1.map Insight.id) := by
  obtain ⟨hev, hsess, hins⟩ := dailySelectNew_post st today r1 count s1 st1 h1
  by_cases hne : s1.map Insight.id ≠ []
  · refine ⟨st1.insights.filter (fun i => i.id ∈ s1.map Insight.id), st1, ?_, ?_⟩
    · rw [get_daily_insights, hsess, find?_upsertSession]
      dsimp only
      rw [if_pos hne]
    · intro n
      constructor
      · intro hn
        obtain ⟨x, hx, hxid⟩ := List.mem_map.mp hn
        have hxf := List.mem_filter.mp hx
        have hx2 : x.id ∈ s1.map Insight.id := by simpa using hxf.2
        rw [hxid] at hx2
        exact hx2
      · intro hn
        obtain ⟨x1, hx1, hx1id⟩ := List.mem_map.mp hn
        have hx1t : x1 ∈ st.insights := dailyV2Candidates_subset st today r1 count x1
          (ensure_variety_v2_subset _ _ _ hev x1 hx1)
        have hidmem : x1.id ∈ s1.map Insight.id := List.mem_map.mpr ⟨x1, hx1, rfl⟩
        refine List.mem_map.mpr ⟨if x1.id ∈ s1.map Insight.id
          then { x1 with last_shown_date := some today } else x1, ?_, ?_⟩
        · refine List.mem_filter.mpr ⟨?_, ?_⟩
          · rw [hins]
            exact List.mem_map.mpr ⟨x1, hx1t, rfl⟩
          · rw [stamp_preserves_id]
            simpa using hidmem
        · rw [stamp_preserves_id]
          exact hx1id
  · push_neg at hne
    have hs1 : s1 = [] := List.map_eq_nil_iff.mp hne
    have hins0 : st1.insights = st.insights := by
      rw [hins, hne, map_stamp_nil]
    have hfind : st1.daily_sessions.find? (fun s => s.session_date = today) =
        some (SessionRow.mk today []) := by
      rw [hsess, hne]
      exact find?_upsertSession _ _ _
    have hcase := ensure_variety_v2_ok_nil _ _ (hs1 ▸ hev)
    have hev2 : ensure_variety_v2 (dailyV2Candidates st1 today r2 count) count =
        Except.ok [] := by
      rcases hcase with hcand | hzero
      · rw [dailyV2Candidates] at hcand
        rcases List.take_eq_nil_iff.mp hcand with h3 | h3
        · have hc0 : count = 0 := by omega
          rw [hc0]
          exact ensure_variety_v2_zero _
        · have hfilt := (stableSort_eq_nil_iff _ _).mp h3
          have hc2 : dailyV2Candidates st1 today r2 count = [] := by
            rw [dailyV2Candidates, hins0, hfilt]
            simp [stableSort]
          rw [hc2]
          exact ensure_variety_v2_nil count
      · rw [hzero]
        exact ensure_variety_v2_zero _
    refine ⟨[], DBV2State.mk
      (st1.insights.map (fun i =>
        if i.id ∈ (([] : List Insight).map Insight.id)
        then { i with last_shown_date := some today } else i))
      (upsertSession st1.daily_sessions today (([] : List Insight).map Insight.id)),
      ?_, by simp [hs1]⟩
    rw [get_daily_insights, hfind]
    dsimp only
    rw [if_neg (by simp)]
    rw [get_daily_insights.dailySelectNew, hev2]

/-! ## Concrete fixtures for witnesses and counterexamples -/

/-- An insight whose eligibility flag is false but which is pending and not
archived — exactly the shape `get_daily_insights` does not filter out. -/
def ineligibleInsight : Insight :=
  { id := 7, tags := some "t", quality_score := some 5, useful_for_daily := false }

/-- A database holding only the ineligible insight and no session row. -/
def dbStateC1 : DBV2State :=
  DBV2State.mk [ineligibleInsight] []

/-- An eligible insight with a stored embedding. -/
def eligInsight : Insight :=
  { id := 1, embedding := some [1], shared_date := some "2025-01-01" }

/-- The constant-zero random tie-break key. -/
def rndZero : Insight → Nat := fun _ => 0

/-- A daily candidate of given id, quality and category. -/
def dayInsight (n : Nat) (q : Int) (cat : String) : Insight :=
  { id := n, quality_score := some q, content_category := some cat, tags := some "t" }

/-- Four pending, eligible candidates with distinct qualities and categories. -/
def utilsStateC2 : UtilsState :=
  UtilsState.mk [dayInsight 1 9 "a", dayInsight 2 8 "b", dayInsight 3 7 "c",
    dayInsight 4 6 "d"]

/-- Ids selected by one `get_daily_three` run (empty on failure). -/
def dailyIdsUtils (st : UtilsState) (today : String) (rnd : Insight → Nat) : List Nat :=
  match get_daily_three st today rnd with
  | Except.ok (sel, _) => sel.map Insight.id
  | Except.error _ => []

/-- State after one `get_daily_three` run (unchanged on failure). -/
def dailyStateUtils (st : UtilsState) (today : String) (rnd : Insight → Nat) :
    UtilsState :=
  match get_daily_three st today rnd with
  | Except.ok (_, st1) => st1
  | Except.error _ => st

/-- Fresh DBV2 store with one pending candidate. -/
def yInsight : Insight :=
  { id := 1, tags := some "t", quality_score := some 5 }

/-- Store before the first daily call. -/
def dbC2w0 : DBV2State :=
  DBV2State.mk [yInsight] []

/-- Store after the first daily call: stamped and with the session recorded. -/
def dbC2w1 : DBV2State :=
  DBV2State.mk [{ yInsight with last_shown_date := some "2026-01-01" }]
    [SessionRow.mk "2026-01-01" [1]]

/-- Relevant topic-search row with quality 0 (Python-falsy). -/
def insA : Insight :=
  { id := 1, content := some "alpha alpha", quality_score := some 0,
    content_category := some "x" }

/-- Relevant topic-search row with quality 1. -/
def insB : Insight :=
  { id := 2, content := some "alpha", quality_score := some 1,
    content_category := some "x" }

/-- The ranking key the specification asserts:
`relevance × max(quality, 1)` (in the same tenths encoding; a NULL quality is
read as 1 — the counterexample only uses non-NULL qualities, so this choice
is inert). -/
def claimRankKey (r : ScoredInsight) : ℤ :=
  r.relevance_score * max (r.insight.quality_score.getD 1) 1

/-- One scored record; three value-equal copies of it dead-lock the fill
loop of `_ensure_variety`. -/
def dupScored : ScoredInsight :=
  ScoredInsight.mk
    { id := 9, content_category := some "dup", source_url := some "https://dup.com/x" }
    [] 10

/-- Two distinct scored records for the diversity-selector witness. -/
def scoredOne : ScoredInsight :=
  ScoredInsight.mk { id := 1, content_category := some "a" } [] 20

/-- Second distinct scored record. -/
def scoredTwo : ScoredInsight :=
  ScoredInsight.mk { id := 2, content_category := some "b" } [] 10

/-- A plain eligible insight for the library-stats fixture. -/
def usefulIns : Insight :=
  { id := 3 }

/-- The disjunction asserted by the specification for every handler result:
a non-empty `insights` key, or an explicit empty-state marker (formalised as
library statistics reporting zero items — the only empty-state signal any
handler emits). -/
def insightsOrEmptyMarker (r : RouteResult) : Prop :=
  (∃ l, r.insights = some l ∧ l ≠ []) ∨ (∃ s, r.stats = some s ∧ s.total = 0)

/-- The six classification types `route_query` knows. -/
def knownQueryTypes : List String :=
  ["recall", "synthesis", "pattern", "decision", "generate", "explore"]

/-- A completion client whose classification reply carries a type outside
the six known ones. -/
def bananaClient : CompletionClient :=
  CompletionClient.mk (fun _ => some (Classification.mk (some "banana") none none
    none none)) (fun _ => "")

/-! # The claims -/

/-- C1 (amended): an insight whose eligibility flag (`useful_for_daily`) is
false is never returned by Topic Search (`ContentSearchEngine.search`),
Semantic Search (`EmbeddingEngine.semantic_search`) or
`BrainGymUtils.get_daily_three`, each of which filters on
`useful_for_daily = 1`.  (The claim as stated also covers
`BrainGymDBV2.get_daily_insights`, which filters only on `archived` and
`status` and is refuted by the counterexample.) -/
theorem claimC1_theorem :
    (∀ (c : Bool) (qe : Option (List ℚ)) (simFn : List ℚ → List ℚ → ℚ)
       (table : List Insight) (uid : Option Int) (tk : Option String)
       (hc1 hc2 : Bool) (lim : Nat) (r : SemResult),
       r ∈ semantic_search c qe simFn table uid tk hc1 hc2 lim →
       r.insight.useful_for_daily = true) ∧
    (∀ (table : List Insight) (topic : String) (lim : Nat) (l : List ScoredInsight),
       ContentSearchEngine_search table topic lim = Except.ok l →
       ∀ r ∈ l, r.insight.useful_for_daily = true) ∧
    (∀ (st : UtilsState) (today : String) (rnd : Insight → Nat) (sel : List Insight)
       (st1 : UtilsState), get_daily_three st today rnd = Except.ok (sel, st1) →
       ∀ i ∈ sel, i.useful_for_daily = true) :=
  ⟨fun c qe simFn table uid tk hc1 hc2 lim r hr =>
      semantic_member_eligible c qe simFn table uid tk hc1 hc2 lim r hr,
   fun table topic lim l h r hr => search_member_eligible table topic lim l h r hr,
   fun st today rnd sel st1 h i hi => daily_three_member_eligible st today rnd sel st1 h i hi⟩

/-- C1 witness: a concrete semantic search returns a row, and that row is
eligible. -/
theorem claimC1_witness :
    SemResult.mk eligInsight 0 ∈
      semantic_search true (some [1]) (fun _ _ => 0) [eligInsight] none none false
        false 20 ∧
    eligInsight.useful_for_daily = true :=
  ⟨by decide, claimC1_theorem.1 true (some [1]) (fun _ _ => 0) [eligInsight] none none
    false false 20 (SemResult.mk eligInsight 0) (by decide)⟩

/-- C1 counterexample: `get_daily_insights` (the Daily Scheduler of
`database_v2.py`) returns an insight whose eligibility flag is false — its
candidate query checks `archived` and `status` but not `useful_for_daily`. -/
theorem claimC1_counterexample :
    (get_daily_insights dbStateC1 "2026-01-01" rndZero 3).toOption.map Prod.fst =
      some [ineligibleInsight] ∧
    ineligibleInsight.useful_for_daily = false :=
  ⟨by decide, by decide⟩

/-- C2 (amended): `BrainGymDBV2.get_daily_insights` is idempotent per day at
the level of insight ids: if a first call on day `today` succeeds, a second
call on the resulting state that same day succeeds and returns the same set
of insight ids, for any random tie-break keys.  (The claim as stated also
covers `BrainGymUtils.get_daily_three`, which persists no per-day selection
and is refuted by the counterexample.) -/
theorem claimC2_theorem (st : DBV2State) (today : String) (r1 r2 : Insight → Nat)
    (count : Nat) (s1 : List Insight) (st1 : DBV2State)
    (h1 : get_daily_insights st today r1 count = Except.ok (s1, st1)) :
    ∃ s2 st2, get_daily_insights st1 today r2 count = Except.ok (s2, st2) ∧
      ∀ n, (n ∈ s2.map Insight.id ↔ n ∈ s1.map Insight.id) := by
  rw [get_daily_insights] at h1
  rcases hf : st.daily_sessions.find? (fun s => s.session_date = today) with _ | sess <;>
    rw [hf] at h1 <;> dsimp only at h1
  · exact dailySelectNew_idem st today r1 r2 count s1 st1 h1
  · by_cases hne : sess.insights_shown ≠ []
    · rw [if_pos hne] at h1
      simp only [Except.ok.injEq, Prod.mk.injEq] at h1
      obtain ⟨rfl, rfl⟩ := h1
      refine ⟨st.insights.filter (fun i => i.id ∈ sess.insights_shown), st, ?_,
        fun n => Iff.rfl⟩
      rw [get_daily_insights, hf]
      dsimp only
      rw [if_pos hne]
    · rw [if_neg hne] at h1
      exact dailySelectNew_idem st today r1 r2 count s1 st1 h1

/-- C2 witness: after a concrete first daily call, the second call that day
returns the same id set. -/
theorem claimC2_witness :
    ∃ s2 st2, get_daily_insights dbC2w1 "2026-01-01" rndZero 3 = Except.ok (s2, st2) ∧
      ∀ n, (n ∈ s2.map Insight.id ↔ n ∈ [yInsight].map Insight.id) :=
  claimC2_theorem dbC2w0 "2026-01-01" rndZero rndZero 3 [yInsight] dbC2w1 (by decide)

/-- C2 counterexample: two same-day `get_daily_three` calls on a store of
four candidates return disjoint sets (ids 1,2,3 then id 4): the first call
stamps its selection as shown, and the second call excludes it instead of
replaying it. -/
theorem claimC2_counterexample :
    dailyIdsUtils utilsStateC2 "2026-01-02" rndZero = [1, 2, 3] ∧
    dailyIdsUtils (dailyStateUtils utilsStateC2 "2026-01-02" rndZero) "2026-01-02"
      rndZero = [4] :=
  ⟨by decide, by decide⟩

/-- C3 (amended): on a zero-norm argument (squared norm zero) the pure-Python
fallback path of `cosine_similarity` returns the literal 0.0 and performs no
division; the numpy path performs the division anyway and produces `nan`
(modelled `none`) — it does not raise, but it does not return 0. -/
theorem claimC3_theorem (a b : List ℚ) (h : sumSq a = 0 ∨ sumSq b = 0) :
    cosine_similarity_py a b = some (CosValue.lit 0) ∧
    cosine_similarity_np a b = none := by
  constructor
  · simp only [cosine_similarity_py]
    rw [if_pos h]
  · simp only [cosine_similarity_np]
    rw [if_pos h]

/-- C3 witness: the zero vector against the unit vector. -/
theorem claimC3_witness :
    (sumSq [(0 : ℚ)] = 0 ∨ sumSq [(1 : ℚ)] = 0) ∧
    (cosine_similarity_py [0] [1] = some (CosValue.lit 0) ∧
     cosine_similarity_np [0] [1] = none) :=
  ⟨Or.inl (by simp [sumSq]), claimC3_theorem [0] [1] (Or.inl (by simp [sumSq]))⟩

/-- C3 counterexample: the numpy path of `cosine_similarity` does not return
0 on a zero-norm input — `0.0 / 0.0` is `nan`. -/
theorem claimC3_counterexample :
    cosine_similarity_np [(0 : ℚ)] [(1 : ℚ)] ≠ some (CosValue.lit 0) ∧
    cosine_similarity_np [(0 : ℚ)] [(1 : ℚ)] = none := by
  constructor <;> simp [cosine_similarity_np, sumSq]

/-- C4 (amended): topic search returns at most `lim` items, every returned
item has a strictly positive relevance score, and the sequence handed to the
diversity selector is sorted descending by the ranking key actually used by
the code, `relevance * (quality or 5)` (`searchKey`) — not by
`relevance × max(quality, 1)` as the specification says (refuted by the
counterexample at quality 0). -/
theorem claimC4_theorem :
    (∀ (table : List Insight) (topic : String) (lim : Nat) (l : List ScoredInsight),
       ContentSearchEngine_search table topic lim = Except.ok l →
       l.length ≤ lim ∧ ∀ r ∈ l, 0 < r.relevance_score) ∧
    (∀ (table : List Insight) (topic : String),
       (scoredSorted table topic).Pairwise (fun a b => searchKey b ≤ searchKey a)) := by
  constructor
  · intro table topic lim l h
    refine ⟨ensure_variety_search_len _ _ _ h, ?_⟩
    intro r hr
    exact (mem_scoredList table topic r (mem_scoredSorted table topic r
      (ensure_variety_search_subset _ _ _ h r hr))).2
  · intro table topic
    exact pairwise_sortDescBy searchKey _

/-- C4 witness: a concrete two-row search. -/
theorem claimC4_witness :
    (scoredSorted [insA, insB] "alpha").length ≤ 2 ∧
    ∀ r ∈ scoredSorted [insA, insB] "alpha", 0 < r.relevance_score :=
  claimC4_theorem.1 [insA, insB] "alpha" 2 (scoredSorted [insA, insB] "alpha")
    (by decide)

/-- C4 counterexample: with a quality-0 row the sequence handed to diversity
selection is NOT sorted by `relevance × max(quality, 1)`: the code's Python
`or` maps quality 0 to 5, so the quality-0 row (claim key 5.5) is ranked
above the quality-1 row (claim key 5.6). -/
theorem claimC4_counterexample :
    (scoredSorted [insA, insB] "alpha").map (fun r => r.insight.id) = [1, 2] ∧
    ¬ List.Pairwise (fun a b => claimRankKey b ≤ claimRankKey a)
      (scoredSorted [insA, insB] "alpha") :=
  ⟨by decide, by decide⟩

/-- C5 (amended): on an input of pairwise-distinct records (and, for the
`database_v2` variant, records with a non-NULL tags column) every
`_ensure_variety` variant terminates and returns exactly
`min(count, length)` items drawn from the input without repetition.  (For
inputs containing value-equal duplicate records the fill loop never makes
progress and the source loops forever — refuted by the counterexample.) -/
theorem claimC5_theorem :
    (∀ (insights : List ScoredInsight) (limit : Nat), insights.Nodup →
       ∃ l, ensure_variety_search insights limit = Except.ok l ∧
         l.length = min limit insights.length ∧ (∀ x ∈ l, x ∈ insights) ∧ l.Nodup) ∧
    (∀ (candidates : List Insight) (count : Nat), candidates.Nodup →
       ∃ l, ensure_variety_utils candidates count = Except.ok l ∧
         l.length = min count candidates.length ∧ (∀ x ∈ l, x ∈ candidates) ∧ l.Nodup) ∧
    (∀ (candidates : List Insight) (count : Nat), candidates.Nodup →
       (∀ i ∈ candidates, i.tags.isSome) →
       ∃ l, ensure_variety_v2 candidates count = Except.ok l ∧
         l.length = min count candidates.length ∧ (∀ x ∈ l, x ∈ candidates) ∧ l.Nodup) :=
  ⟨fun ins lim h => ensure_variety_search_spec ins lim h,
   fun c n h => ensure_variety_utils_spec c n h,
   fun c n h ht => ensure_variety_v2_spec c n h ht⟩

/-- C5 witness: two distinct records, target 1. -/
theorem claimC5_witness :
    ([scoredOne, scoredTwo] : List ScoredInsight).Nodup ∧
    ∃ l, ensure_variety_search [scoredOne, scoredTwo] 1 = Except.ok l ∧
      l.length = min 1 ([scoredOne, scoredTwo] : List ScoredInsight).length ∧
      (∀ x ∈ l, x ∈ [scoredOne, scoredTwo]) ∧ l.Nodup :=
  ⟨by decide, claimC5_theorem.1 [scoredOne, scoredTwo] 1 (by decide)⟩

/-- C5 counterexample: on three value-equal copies of one record with target
2, the diversity pass keeps one copy, the fill sweep is then the identity
while the `while` guard still holds — the source loops forever (the fueled
model exhausts its fuel for every fuel value, since one sweep is a no-op). -/
theorem claimC5_counterexample :
    ensure_variety_search [dupScored, dupScored, dupScored] 2 =
      Except.error PyFail.fuel ∧
    fillSweep 2 [dupScored, dupScored, dupScored] [dupScored] = [dupScored] ∧
    (([dupScored] : List ScoredInsight).length < 2 ∧
     ([dupScored] : List ScoredInsight).length <
       ([dupScored, dupScored, dupScored] : List ScoredInsight).length) :=
  ⟨by decide, by decide, by decide⟩

/-- C6 (amended): with no completion client configured, `route_query` is
total — it always classifies to recall and returns the recall handler's
structure unchanged-state — and every handler returns its fixed structure:
the recall, synthesis, pattern, decision and generate handlers return a
structure containing the `insights` key (possibly an empty list), while the
explore handler returns no `insights` key but `stats` and `sample` keys
(its fallback response is a templated statistics summary).  (The claim's
"non-empty `insights` key or an explicit empty-state marker" is refuted by
the counterexample.) -/
theorem claimC6_theorem :
    (∀ (q : String) (emb : Bool) (qe : Option (List ℚ)) (simFn : List ℚ → List ℚ → ℚ)
       (table : List Insight) (uid : Option Int) (tk : Option String) (hc1 hc2 : Bool)
       (st : QEState),
       route_query none q emb qe simFn table uid tk hc1 hc2 st =
         (handle_recall none q (semantic_search emb qe simFn table uid tk hc1 hc2 20)
           (fallbackClassification q), st)) ∧
    (∀ (q : String) (ins : List SemResult) (cl : Classification),
       (handle_recall none q ins cl).insights = some (ins.take 5)) ∧
    (∀ (q : String) (ins : List SemResult) (cl : Classification) (uid : Option Int)
       (st : QEState),
       (handle_synthesis none q ins cl uid st).1.insights = some (ins.take 15)) ∧
    (∀ (q : String) (ins : List SemResult) (cl : Classification),
       (handle_pattern none q ins cl).insights = some (ins.take 20)) ∧
    (∀ (q : String) (ins : List SemResult) (cl : Classification),
       (handle_decision none q ins cl).insights = some (ins.take 15)) ∧
    (∀ (q : String) (ins : List SemResult) (cl : Classification),
       (handle_generate q ins cl).insights = some (ins.take 10)) ∧
    (∀ (q : String) (ins : List SemResult) (cl : Classification) (table : List Insight),
       (handle_explore none q ins cl table).insights = none ∧
       (handle_explore none q ins cl table).stats = some (get_library_stats table) ∧
       (handle_explore none q ins cl table).sample = some (get_diverse_sample ins 10)) :=
  ⟨fun _q _emb _qe _simFn _table _uid _tk _hc1 _hc2 _st => rfl,
   fun _q _ins _cl => rfl,
   fun _q _ins _cl _uid _st => rfl,
   fun _q _ins _cl => rfl,
   fun _q _ins _cl => rfl,
   fun _q _ins _cl => rfl,
   fun _q _ins _cl _table => ⟨rfl, rfl, rfl⟩⟩

/-- C6 counterexample: the explore handler, with no completion client and a
non-empty library, returns a structure with no `insights` key at all and no
empty-state marker (its statistics report one item). -/
theorem claimC6_counterexample :
    ¬ insightsOrEmptyMarker
        (handle_explore none "q" [] (fallbackClassification "q") [usefulIns]) := by
  intro h
  rcases h with ⟨l, hl, _⟩ | ⟨s, hs, hz⟩
  · have h1 : (handle_explore none "q" [] (fallbackClassification "q")
        [usefulIns]).insights = none := rfl
    rw [h1] at hl
    exact Option.noConfusion hl
  · have h2 : (handle_explore none "q" [] (fallbackClassification "q")
        [usefulIns]).stats = some (get_library_stats [usefulIns]) := rfl
    rw [h2] at hs
    injection hs with h3
    rw [← h3] at hz
    exact absurd hz (by decide)

/-- C7 (confirmed): the synthesis handler always persists a `Synthesis` row
whose stored source ids are exactly the ids of the at-most-15 top results in
order, and returns its id as `synthesis_id`, with or without a completion
client; and `route_query` dispatches to it exactly when the classification
type is `synthesis`. -/
theorem claimC7_theorem :
    (∀ (client : Option CompletionClient) (q : String) (ins : List SemResult)
       (cl : Classification) (uid : Option Int) (st : QEState),
       (handle_synthesis client q ins cl uid st).1.synthesis_id =
         some (st.syntheses.length + 1) ∧
       (handle_synthesis client q ins cl uid st).1.insights = some (ins.take 15) ∧
       ∃ text, (handle_synthesis client q ins cl uid st).2.syntheses =
         st.syntheses ++ [SynthRow.mk (st.syntheses.length + 1) uid q text
           ((semInsights (ins.take 15)).map Insight.id)]) ∧
    (∀ (client : Option CompletionClient) (q : String) (emb : Bool)
       (qe : Option (List ℚ)) (simFn : List ℚ → List ℚ → ℚ) (table : List Insight)
       (uid : Option Int) (tk : Option String) (hc1 hc2 : Bool) (st : QEState),
       (classify_query client q).type.getD "recall" = "synthesis" →
       route_query client q emb qe simFn table uid tk hc1 hc2 st =
         handle_synthesis client q
           (semantic_search emb qe simFn table uid tk hc1 hc2 20)
           (classify_query client q) uid st) := by
  constructor
  · intro client q ins cl uid st
    rcases client with _ | c
    · exact ⟨rfl, rfl, ⟨_, rfl⟩⟩
    · exact ⟨rfl, rfl, ⟨_, rfl⟩⟩
  · intro client q emb qe simFn table uid tk hc1 hc2 st h
    rw [route_query]
    rw [h]
    simp

/-- C7 witness: a concrete client classifying as synthesis; the dispatch
hypothesis holds and the persisted row carries the top result ids. -/
theorem claimC7_witness :
    (handle_synthesis (some bananaClient) "q" [SemResult.mk eligInsight 0]
        (Classification.mk (some "synthesis") none none none none) none
        (QEState.mk [])).1.synthesis_id = some 1 ∧
    (handle_synthesis (some bananaClient) "q" [SemResult.mk eligInsight 0]
        (Classification.mk (some "synthesis") none none none none) none
        (QEState.mk [])).1.insights = some ([SemResult.mk eligInsight 0].take 15) ∧
    ∃ text, (handle_synthesis (some bananaClient) "q" [SemResult.mk eligInsight 0]
        (Classification.mk (some "synthesis") none none none none) none
        (QEState.mk [])).2.syntheses =
      [] ++ [SynthRow.mk 1 none "q" text
        ((semInsights ([SemResult.mk eligInsight 0].take 15)).map Insight.id)] :=
  claimC7_theorem.1 (some bananaClient) "q" [SemResult.mk eligInsight 0]
    (Classification.mk (some "synthesis") none none none none) none (QEState.mk [])

/-- C8 (confirmed): `semantic_search` returns at most `lim` rows, sorted in
non-increasing `similarity_score` order; equal-similarity ties keep the
relative order of the sequence handed to the sort (the stable sort leaves
every equal-score fibre unchanged); and the result is empty whenever the
embedding client is absent or the query embedding is absent — for every
similarity function. -/
theorem claimC8_theorem :
    (∀ (c : Bool) (qe : Option (List ℚ)) (simFn : List ℚ → List ℚ → ℚ)
       (table : List Insight) (uid : Option Int) (tk : Option String)
       (hc1 hc2 : Bool) (lim : Nat),
       (semantic_search c qe simFn table uid tk hc1 hc2 lim).length ≤ lim) ∧
    (∀ (c : Bool) (qe : Option (List ℚ)) (simFn : List ℚ → List ℚ → ℚ)
       (table : List Insight) (uid : Option Int) (tk : Option String)
       (hc1 hc2 : Bool) (lim : Nat),
       (semantic_search c qe simFn table uid tk hc1 hc2 lim).Pairwise
         (fun a b => b.similarity_score ≤ a.similarity_score)) ∧
    (∀ (simFn : List ℚ → List ℚ → ℚ) (qe : List ℚ) (table : List Insight)
       (uid : Option Int) (tk : Option String) (hc1 hc2 : Bool) (lim : Nat),
       semantic_search true (some qe) simFn table uid tk hc1 hc2 lim =
         (sortDescBy (fun r => r.similarity_score)
           (semanticScored simFn qe
             (semanticCandidates table uid tk hc1 hc2))).take lim) ∧
    (∀ (simFn : List ℚ → List ℚ → ℚ) (qe : List ℚ) (table : List Insight)
       (uid : Option Int) (tk : Option String) (hc1 hc2 : Bool) (s : ℚ),
       (sortDescBy (fun r => r.similarity_score)
         (semanticScored simFn qe (semanticCandidates table uid tk hc1 hc2))).filter
           (fun r => r.similarity_score = s) =
       (semanticScored simFn qe (semanticCandidates table uid tk hc1 hc2)).filter
           (fun r => r.similarity_score = s)) ∧
    (∀ (qe : Option (List ℚ)) (simFn : List ℚ → List ℚ → ℚ) (table : List Insight)
       (uid : Option Int) (tk : Option String) (hc1 hc2 : Bool) (lim : Nat),
       semantic_search false qe simFn table uid tk hc1 hc2 lim = []) ∧
    (∀ (c : Bool) (simFn : List ℚ → List ℚ → ℚ) (table : List Insight)
       (uid : Option Int) (tk : Option String) (hc1 hc2 : Bool) (lim : Nat),
       semantic_search c none simFn table uid tk hc1 hc2 lim = []) := by
  refine ⟨?_, ?_, ?_, ?_, ?_, ?_⟩
  · intro c qe simFn table uid tk hc1 hc2 lim
    cases c
    · simp [semantic_search]
    · cases qe
      · simp [semantic_search]
      · simp only [semantic_search, Bool.not_true, Bool.false_eq_true, if_false]
        exact List.length_take_le _ _
  · intro c qe simFn table uid tk hc1 hc2 lim
    cases c
    · simp [semantic_search]
    · cases qe
      · simp [semantic_search]
      · simp only [semantic_search, Bool.not_true, Bool.false_eq_true, if_false]
        exact List.Pairwise.sublist (List.take_sublist _ _)
          (pairwise_sortDescBy (fun r : SemResult => r.similarity_score) _)
  · intro simFn qe table uid tk hc1 hc2 lim
    rfl
  · intro simFn qe table uid tk hc1 hc2 s
    exact filter_sortDescBy_key _ s _
  · intro qe simFn table uid tk hc1 hc2 lim
    rfl
  · intro c simFn table uid tk hc1 hc2 lim
    cases c <;> rfl

/-- C9 (confirmed): with no completion client configured, the classifier
returns type recall, intent equal to the input query and empty extracted
concepts, for any non-empty query. -/
theorem claimC9_theorem (q : String) (_hq : q ≠ "") :
    (classify_query none q).type = some "recall" ∧
    (classify_query none q).intent = some q ∧
    (classify_query none q).key_concepts = some [] :=
  ⟨rfl, rfl, rfl⟩

/-- C9 witness. -/
theorem claimC9_witness :
    ("hello" : String) ≠ "" ∧
    ((classify_query none "hello").type = some "recall" ∧
     (classify_query none "hello").intent = some "hello" ∧
     (classify_query none "hello").key_concepts = some []) :=
  ⟨by decide, claimC9_theorem "hello" (by decide)⟩

/-- C10 (confirmed): any classification type outside the six known ones is
dispatched to the recall handler, so every `route_query` result has the
shape of one of the six handlers. -/
theorem claimC10_theorem (client : Option CompletionClient) (q : String) (emb : Bool)
    (qe : Option (List ℚ)) (simFn : List ℚ → List ℚ → ℚ) (table : List Insight)
    (uid : Option Int) (tk : Option String) (hc1 hc2 : Bool) (st : QEState)
    (h : (classify_query client q).type.getD "recall" ∉ knownQueryTypes) :
    route_query client q emb qe simFn table uid tk hc1 hc2 st =
      (handle_recall client q (semantic_search emb qe simFn table uid tk hc1 hc2 20)
        (classify_query client q), st) := by
  simp only [knownQueryTypes, List.mem_cons, List.mem_singleton, not_or] at h
  obtain ⟨h1, h2, h3, h4, h5, h6, _⟩ := h
  rw [route_query]
  rw [if_neg h1, if_neg h2, if_neg h3, if_neg h4, if_neg h5, if_neg h6]

/-- C10 witness: a completion reply classifying as the unknown type
`banana` routes to the recall handler. -/
theorem claimC10_witness :
    route_query (some bananaClient) "hi" false none (fun _ _ => 0) [] none none false
      false (QEState.mk []) =
    (handle_recall (some bananaClient) "hi"
      (semantic_search false none (fun _ _ => 0) [] none none false false 20)
      (classify_query (some bananaClient) "hi"), QEState.mk []) :=
  claimC10_theorem (some bananaClient) "hi" false none (fun _ _ => 0) [] none none
    false false (QEState.mk []) (by decide)
